import Mathlib

/-!
# caddy-validate-github: the `validate_github` request authenticator

A shallow embedding of `middleware.go` (package `validate`) together with the
pieces of the Go standard library and of Caddy that the handler calls:
`strings.TrimPrefix`, `encoding/hex`, `crypto/sha256`, `crypto/hmac`,
`crypto/subtle`, `net/http` (`Header.Get`, `Error`, a response recorder),
`ioutil.ReadAll` and `caddyfile.Dispenser`.

Go strings and byte slices are sequences of bytes; both are modelled as
`List Byte`.  32-bit words of SHA-256 are naturals reduced modulo `2 ^ 32`.
-/

namespace validate

/-- A Go `byte`. -/
abbrev Byte := Fin 256

/-- A Go `[]byte` or `string`: a finite sequence of bytes. -/
abbrev Bytes := List Byte

/-- The bytes of an ASCII string literal of the source. -/
def lit (s : String) : Bytes := s.toList.map (fun c => Fin.ofNat c.toNat)

/-! ## strings -/

namespace strings

/-- Go `strings.HasPrefix`. -/
def HasPrefix : Bytes → Bytes → Bool
  | _, [] => true
  | [], _ :: _ => false
  | c :: s, p :: ps => c == p && HasPrefix s ps

/-- Go `strings.TrimPrefix`: `s` without the leading `pre` when it has it,
`s` unchanged otherwise. -/
def TrimPrefix (s pre : Bytes) : Bytes :=
  if HasPrefix s pre then s.drop pre.length else s

/-- Go `strings.Count(s, "\n")`, the number of line feeds of `s`. -/
def CountNewlines (s : Bytes) : Nat := s.count 10

/-- Go `strings.ToUpper` on ASCII text: the letters `a`..`z` become
`A`..`Z`, every other byte stays. -/
def ToUpper (s : Bytes) : Bytes :=
  s.map (fun c => if 97 ≤ c.val ∧ c.val ≤ 122 then Fin.ofNat (c.val - 32) else c)

end strings

/-! ## encoding/hex -/

namespace hex

/-- Go `hex.hextable = "0123456789abcdef"`. -/
def hextable : Bytes :=
  [48, 49, 50, 51, 52, 53, 54, 55, 56, 57, 97, 98, 99, 100, 101, 102]

/-- The hex digit of a nibble, `hextable[n]`. -/
def digit (n : Nat) : Byte := hextable.getD n 0

/-- Go `hex.EncodeToString`: two lower-case digits per byte, high nibble
first (`hextable[v>>4]`, `hextable[v&0x0f]`). -/
def EncodeToString : Bytes → Bytes
  | [] => []
  | v :: rest => digit (v.val >>> 4) :: digit (v.val &&& 0x0f) :: EncodeToString rest

/-- Go `hex.fromHexChar`: the value of a hex digit of either case, `none`
for any other byte. -/
def fromHexChar (c : Byte) : Option Nat :=
  if 48 ≤ c.val ∧ c.val ≤ 57 then some (c.val - 48)
  else if 97 ≤ c.val ∧ c.val ≤ 102 then some (c.val - 97 + 10)
  else if 65 ≤ c.val ∧ c.val ≤ 70 then some (c.val - 65 + 10)
  else none

/-- The errors of Go `encoding/hex`. -/
inductive Error where
  | InvalidByteError (c : Byte)
  | ErrLength
  deriving DecidableEq, Repr

deriving instance DecidableEq for Except

/-- Go `hex.DecodeString`: decodes the digits pair by pair; the first
invalid digit is reported, and an odd number of digits is `ErrLength`
unless the odd digit is itself invalid. -/
def DecodeString : Bytes → Except Error Bytes
  | [] => .ok []
  | [c] =>
    match fromHexChar c with
    | none => .error (.InvalidByteError c)
    | some _ => .error .ErrLength
  | p :: q :: rest =>
    match fromHexChar p with
    | none => .error (.InvalidByteError p)
    | some a =>
      match fromHexChar q with
      | none => .error (.InvalidByteError q)
      | some b =>
        match DecodeString rest with
        | .error e => .error e
        | .ok out => .ok (Fin.ofNat ((a <<< 4) ||| b) :: out)

end hex

/-! ## crypto/sha256 -/

namespace sha256

/-- The digest size in bytes, Go `sha256.Size`. -/
def Size : Nat := 32

/-- The block size in bytes, Go `sha256.BlockSize`. -/
def BlockSize : Nat := 64

/-- Addition of 32-bit words. -/
def add32 (a b : Nat) : Nat := (a + b) % 2 ^ 32

/-- Rotation of a 32-bit word to the right, Go `bits.RotateLeft32(x, -k)`. -/
def rotr (x k : Nat) : Nat := ((x >>> k) ||| (x <<< (32 - k))) % 2 ^ 32

/-- Complement of a 32-bit word. -/
def not32 (x : Nat) : Nat := (2 ^ 32 - 1) ^^^ x

/-- The round constants `_K`, four rounds to a row. -/
def K : List Nat :=
  [0x428a2f98, 0x71374491, 0xb5c0fbcf, 0xe9b5dba5] ++
  [0x3956c25b, 0x59f111f1, 0x923f82a4, 0xab1c5ed5] ++
  [0xd807aa98, 0x12835b01, 0x243185be, 0x550c7dc3] ++
  [0x72be5d74, 0x80deb1fe, 0x9bdc06a7, 0xc19bf174] ++
  [0xe49b69c1, 0xefbe4786, 0x0fc19dc6, 0x240ca1cc] ++
  [0x2de92c6f, 0x4a7484aa, 0x5cb0a9dc, 0x76f988da] ++
  [0x983e5152, 0xa831c66d, 0xb00327c8, 0xbf597fc7] ++
  [0xc6e00bf3, 0xd5a79147, 0x06ca6351, 0x14292967] ++
  [0x27b70a85, 0x2e1b2138, 0x4d2c6dfc, 0x53380d13] ++
  [0x650a7354, 0x766a0abb, 0x81c2c92e, 0x92722c85] ++
  [0xa2bfe8a1, 0xa81a664b, 0xc24b8b70, 0xc76c51a3] ++
  [0xd192e819, 0xd6990624, 0xf40e3585, 0x106aa070] ++
  [0x19a4c116, 0x1e376c08, 0x2748774c, 0x34b0bcb5] ++
  [0x391c0cb3, 0x4ed8aa4a, 0x5b9cca4f, 0x682e6ff3] ++
  [0x748f82ee, 0x78a5636f, 0x84c87814, 0x8cc70208] ++
  [0x90befffa, 0xa4506ceb, 0xbef9a3f7, 0xc67178f2]

/-- The chaining value `h[0..7]` of a digest in progress. -/
structure State where
  h0 : Nat
  h1 : Nat
  h2 : Nat
  h3 : Nat
  h4 : Nat
  h5 : Nat
  h6 : Nat
  h7 : Nat
  deriving DecidableEq, Repr

/-- The initial chaining value `init0 .. init7`. -/
def init : State :=
  ⟨0x6a09e667, 0xbb67ae85, 0x3c6ef372, 0xa54ff53a, 0x510e527f, 0x9b05688c, 0x1f83d9ab, 0x5be0cd19⟩

/-- A big-endian 32-bit word from four bytes. -/
def word (a b c d : Byte) : Nat := a.val <<< 24 ||| b.val <<< 16 ||| c.val <<< 8 ||| d.val

/-- The sixteen big-endian words of a block (missing bytes read as zero). -/
def words : Nat → Bytes → List Nat
  | 0, _ => []
  | n + 1, p => word (p.getD 0 0) (p.getD 1 0) (p.getD 2 0) (p.getD 3 0) :: words n (p.drop 4)

/-- The message schedule: `w` holds the words computed so far, newest first;
each further word is `σ1(w[i-2]) + w[i-7] + σ0(w[i-15]) + w[i-16]`. -/
def schedule : Nat → List Nat → List Nat
  | 0, w => w
  | n + 1, w =>
    let v1 := w.getD 1 0
    let t1 := rotr v1 17 ^^^ rotr v1 19 ^^^ (v1 >>> 10)
    let v2 := w.getD 14 0
    let t2 := rotr v2 7 ^^^ rotr v2 18 ^^^ (v2 >>> 3)
    schedule n (add32 (add32 (add32 t1 (w.getD 6 0)) t2) (w.getD 15 0) :: w)

/-- One round of the compression function on the working variables. -/
def round (s : State) (k w : Nat) : State :=
  let t1 := add32 (add32 (add32 (add32 s.h7
      (rotr s.h4 6 ^^^ rotr s.h4 11 ^^^ rotr s.h4 25))
      ((s.h4 &&& s.h5) ^^^ (not32 s.h4 &&& s.h6))) k) w
  let t2 := add32 (rotr s.h0 2 ^^^ rotr s.h0 13 ^^^ rotr s.h0 22)
      ((s.h0 &&& s.h1) ^^^ (s.h0 &&& s.h2) ^^^ (s.h1 &&& s.h2))
  ⟨add32 t1 t2, s.h0, s.h1, s.h2, add32 s.h3 t1, s.h4, s.h5, s.h6⟩

/-- The rounds of one block, over the round constants and schedule words. -/
def rounds : State → List Nat → List Nat → State
  | s, k :: ks, w :: ws => rounds (round s k w) ks ws
  | s, _, _ => s

/-- Go `sha256.block` on a single 64-byte block. -/
def block1 (s : State) (p : Bytes) : State :=
  let w := (schedule 48 (words 16 p).reverse).reverse
  let t := rounds s K w
  ⟨add32 s.h0 t.h0, add32 s.h1 t.h1, add32 s.h2 t.h2, add32 s.h3 t.h3,
   add32 s.h4 t.h4, add32 s.h5 t.h5, add32 s.h6 t.h6, add32 s.h7 t.h7⟩

/-- Go `sha256.block`: `n` consecutive 64-byte blocks of `p`. -/
def block : Nat → State → Bytes → State
  | 0, s, _ => s
  | n + 1, s, p => block n (block1 s (p.take 64)) (p.drop 64)

/-- The big-endian bytes of a 32-bit word. -/
def putUint32 (x : Nat) : Bytes :=
  [Fin.ofNat (x >>> 24), Fin.ofNat (x >>> 16), Fin.ofNat (x >>> 8), Fin.ofNat x]

/-- The big-endian bytes of a 64-bit word. -/
def putUint64 (x : Nat) : Bytes :=
  putUint32 ((x >>> 32) % 2 ^ 32) ++ putUint32 (x % 2 ^ 32)

/-- The padding of `checkSum`: `0x80`, zeros up to 56 modulo 64, then the
length of the message in bits as a 64-bit word. -/
def pad (len : Nat) : Bytes :=
  let t := if len % 64 < 56 then 56 - len % 64 else 64 + 56 - len % 64
  (0x80 : Byte) :: List.replicate (t - 1) 0 ++ putUint64 ((len <<< 3) % 2 ^ 64)

/-- Go `sha256.Sum256` (a fresh digest, `Write(data)`, `Sum(nil)`). -/
def Sum256 (data : Bytes) : Bytes :=
  let p := data ++ pad data.length
  let s := block (p.length / 64) init p
  putUint32 s.h0 ++ putUint32 s.h1 ++ putUint32 s.h2 ++ putUint32 s.h3 ++
  putUint32 s.h4 ++ putUint32 s.h5 ++ putUint32 s.h6 ++ putUint32 s.h7

end sha256

/-! ## crypto/hmac and crypto/subtle -/

namespace hmac

/-- The key block of `hmac.New(sha256.New, key)`: a key longer than the
block size is hashed first, and the key is copied into a zeroed block. -/
def keyBlock (key : Bytes) : Bytes :=
  let k := if key.length > sha256.BlockSize then sha256.Sum256 key else key
  k ++ List.replicate (sha256.BlockSize - k.length) 0

/-- The block with every byte xor-ed with `c` (`ipad`, `opad`). -/
def xorPad (blk : Bytes) (c : Byte) : Bytes := blk.map (fun b => b ^^^ c)

/-- The value of `mac.Sum(nil)` after `mac := hmac.New(sha256.New, key)` and
`mac.Write(msg)`: the outer hash of `opad` followed by the inner hash of
`ipad` followed by the message. -/
def Sum (key msg : Bytes) : Bytes :=
  let blk := keyBlock key
  sha256.Sum256 (xorPad blk 0x5c ++ sha256.Sum256 (xorPad blk 0x36 ++ msg))

end hmac

namespace subtle

/-- The accumulator of `ConstantTimeCompare`: `v |= x[i] ^ y[i]`. -/
def xorAcc : Nat → Bytes → Bytes → Nat
  | v, a :: x, b :: y => xorAcc (v ||| (a.val ^^^ b.val)) x y
  | v, _, _ => v

/-- Go `subtle.ConstantTimeCompare`: `1` when the slices have the same
length and content, `0` otherwise. -/
def ConstantTimeCompare (x y : Bytes) : Nat :=
  if x.length ≠ y.length then 0
  else if xorAcc 0 x y = 0 then 1 else 0

end subtle

namespace hmac

/-- Go `hmac.Equal`. -/
def Equal (mac1 mac2 : Bytes) : Bool := subtle.ConstantTimeCompare mac1 mac2 == 1

end hmac

/-! ## Errors, logging, panics -/

/-- A Go `error` value, identified by the text of `Error()`. -/
structure GoError where
  text : Bytes
  deriving DecidableEq, Repr

/-- A run-time panic of the Go program. -/
inductive Panic where
  | nilPointerDereference
  deriving DecidableEq, Repr

/-- An argument of a formatted log call. -/
inductive LogArg where
  | str (s : Bytes)
  | hexOf (b : Bytes)
  | err (e : GoError)
  | hexErr (e : hex.Error)
  deriving DecidableEq, Repr

/-- The level of a log entry. -/
inductive Level where
  | debug
  | error
  deriving DecidableEq, Repr

/-- One call of the sugared logger: level, template and arguments. -/
structure LogEntry where
  level : Level
  template : String
  args : List LogArg
  deriving DecidableEq, Repr

/-- The entries a `*zap.SugaredLogger` has received, oldest first. -/
abbrev SugaredLogger := List LogEntry

/-- A call `logger.Debug/Debugf/Errorf(...)` through a `*zap.SugaredLogger`
field: a nil pointer panics, otherwise the entry is appended. -/
def logTo (logger : Option SugaredLogger) (e : LogEntry) : Except Panic SugaredLogger :=
  match logger with
  | none => .error .nilPointerDereference
  | some l => .ok (l ++ [e])

/-! ## net/http -/

namespace http

/-- Go `http.StatusForbidden`. -/
def StatusForbidden : Nat := 403

/-- Go `http.StatusOK`. -/
def StatusOK : Nat := 200

/-- Go `http.Header`, a map from canonical keys to their values. -/
abbrev Header := List (Bytes × List Bytes)

/-- The bytes allowed in a header field name (`validHeaderFieldByte`):
letters, digits and ``!#$%&'*+-.^_`|~``. -/
def validHeaderFieldByte (c : Byte) : Bool :=
  (48 ≤ c.val && c.val ≤ 57) || (65 ≤ c.val && c.val ≤ 90) || (97 ≤ c.val && c.val ≤ 122) ||
  c.val == 33 || (35 ≤ c.val && c.val ≤ 39) || c.val == 42 || c.val == 43 || c.val == 45 ||
  c.val == 46 || c.val == 94 || c.val == 95 || c.val == 96 || c.val == 124 || c.val == 126

/-- The case mapping of `canonicalMIMEHeaderKey`: upper case at the start
and after a hyphen, lower case elsewhere. -/
def canonicalCase : Bool → Bytes → Bytes
  | _, [] => []
  | upper, c :: rest =>
    let c1 : Byte :=
      if upper ∧ 97 ≤ c.val ∧ c.val ≤ 122 then Fin.ofNat (c.val - 32)
      else if ¬ upper ∧ 65 ≤ c.val ∧ c.val ≤ 90 then Fin.ofNat (c.val + 32)
      else c
    c1 :: canonicalCase (c1.val == 45) rest

/-- Go `textproto.CanonicalMIMEHeaderKey`: a key holding a byte that is not
valid in a field name is returned unchanged. -/
def CanonicalMIMEHeaderKey (s : Bytes) : Bytes :=
  if s.all validHeaderFieldByte then canonicalCase true s else s

/-- Go `Header.Get`: the first value of the canonical key, `""` when the key
is absent or has no value. -/
def Header.Get (h : Header) (key : Bytes) : Bytes :=
  match h.lookup (CanonicalMIMEHeaderKey key) with
  | some (v :: _) => v
  | _ => []

/-- Go `Header.Set`: the key's values become the single value `value`. -/
def Header.Set (h : Header) (key value : Bytes) : Header :=
  (CanonicalMIMEHeaderKey key, [value]) :: h.filter (fun kv => kv.1 != CanonicalMIMEHeaderKey key)

/-- Go `Header.Add`: `value` is appended to the key's values. -/
def Header.Add (h : Header) (key value : Bytes) : Header :=
  match h.lookup (CanonicalMIMEHeaderKey key) with
  | some vs =>
    (CanonicalMIMEHeaderKey key, vs ++ [value]) ::
      h.filter (fun kv => kv.1 != CanonicalMIMEHeaderKey key)
  | none => (CanonicalMIMEHeaderKey key, [value]) :: h

/-- The `http.ResponseWriter` of a call, as `httptest.ResponseRecorder`
records it: status code, headers, body written, and whether the status line
is already out. -/
structure ResponseRecorder where
  Code : Nat
  HeaderMap : Header
  Body : Bytes
  wroteHeader : Bool
  deriving DecidableEq, Repr

/-- Go `httptest.NewRecorder()`. -/
def NewRecorder : ResponseRecorder := ⟨200, [], [], false⟩

/-- Go `ResponseWriter.WriteHeader`: only the first call sets the status. -/
def ResponseRecorder.WriteHeader (w : ResponseRecorder) (code : Nat) : ResponseRecorder :=
  if w.wroteHeader then w else { w with Code := code, wroteHeader := true }

/-- Go `ResponseWriter.Write`: sends status 200 first when no status is out
yet, then appends to the body. -/
def ResponseRecorder.Write (w : ResponseRecorder) (buf : Bytes) : ResponseRecorder :=
  let w1 := w.WriteHeader StatusOK
  { w1 with Body := w1.Body ++ buf }

/-- Go `http.Error(w, error, code)`: plain-text headers, the status code,
then the message followed by a line feed (`fmt.Fprintln`). -/
def Error (w : ResponseRecorder) (error : Bytes) (code : Nat) : ResponseRecorder :=
  let h1 := Header.Set w.HeaderMap (lit "Content-Type") (lit "text/plain; charset=utf-8")
  let h2 := Header.Set h1 (lit "X-Content-Type-Options") (lit "nosniff")
  let w1 := ({ w with HeaderMap := h2 } : ResponseRecorder).WriteHeader code
  w1.Write (error ++ [10])

end http

/-- An `io.ReadCloser` request body: the bytes it still yields, the error
that ends the stream in place of `io.EOF` (if any), and whether it was
closed. -/
structure ReadCloser where
  data : Bytes
  err : Option GoError
  closed : Bool
  deriving DecidableEq, Repr

namespace ioutil

/-- Go `ioutil.ReadAll`: everything the stream yields and the error that
ended it (`nil` at `io.EOF`); the stream is left drained. -/
def ReadAll (rc : ReadCloser) : Bytes × Option GoError × ReadCloser :=
  (rc.data, rc.err, { rc with data := [] })

/-- Go `ioutil.NopCloser(bytes.NewBuffer(b))`: a fresh stream over `b`. -/
def NopCloser (b : Bytes) : ReadCloser := ⟨b, none, false⟩

end ioutil

/-- Go `ReadCloser.Close`. -/
def ReadCloser.Close (rc : ReadCloser) : ReadCloser := { rc with closed := true }

/-- The fields of `*http.Request` the handler touches. -/
structure Request where
  Body : ReadCloser
  Header : http.Header
  RemoteAddr : Bytes
  deriving DecidableEq, Repr

/-- A `caddyhttp.Handler`: `ServeHTTP(w, r)` may write to `w`, change `*r`
and return an error. -/
structure Handler where
  ServeHTTP : http.ResponseRecorder → Request → http.ResponseRecorder × Request × Option GoError

/-! ## package validate: `middleware.go` -/

/-- The struct `Middleware`: the configured `Secret`, the logger set by
`Provision` (nil before), and the byte secret committed by `Validate`. -/
structure Middleware where
  Secret : Bytes
  logger : Option SugaredLogger
  secret : Bytes
  deriving DecidableEq, Repr

/-- Go `new(Middleware)`. -/
def Middleware.new : Middleware := ⟨[], none, []⟩

/-- The part of `caddy.Context` that `Provision` uses: the logger that
`ctx.Logger(m).Sugar()` hands out. -/
structure Context where
  Logger : SugaredLogger

/-- The method `Provision`: sets the logger when it is nil; returns nil. -/
def Provision (m : Middleware) (ctx : Context) : Middleware × Option GoError :=
  if m.logger = none then ({ m with logger := some ctx.Logger }, none) else (m, none)

/-- What a call of `ServeHTTP` leaves behind: the response writer, the
request, the logger, the requests `next.ServeHTTP` was called with (in call
order), and the returned error. -/
structure Outcome where
  w : http.ResponseRecorder
  r : Request
  logger : SugaredLogger
  next : List Request
  err : Option GoError
  deriving DecidableEq, Repr

/-- The name of the signature header. -/
def sigHeader : Bytes := lit "X-Hub-Signature-256"

/-- The prefix of the signature header's value. -/
def sigPrefix : Bytes := lit "sha256="

/-- The message of every rejection. -/
def invalidSignature : Bytes := lit "invalid signature"

/-- The rejection of `ServeHTTP`: log `e`, then
`http.Error(w, "invalid signature", http.StatusForbidden)` and `return nil`. -/
def reject (m : Middleware) (w : http.ResponseRecorder) (r : Request) (e : LogEntry) :
    Except Panic Outcome :=
  match logTo m.logger e with
  | .error p => .error p
  | .ok l => .ok ⟨http.Error w invalidSignature http.StatusForbidden, r, l, [], none⟩

/-- The method `ServeHTTP`. -/
def ServeHTTP (m : Middleware) (w : http.ResponseRecorder) (r : Request) (next : Handler) :
    Except Panic Outcome :=
  match ioutil.ReadAll r.Body with
  | (_, some err, body) =>
    reject m w { r with Body := body } ⟨.error, "reading request body: %v", [.err err]⟩
  | (b, none, body) =>
    let r1 := { r with Body := body.Close }
    if b.length = 0 then
      reject m w r1 ⟨.debug, "cannot validate an empty request body", []⟩
    else
      let s := strings.TrimPrefix (r1.Header.Get sigHeader) sigPrefix
      if s = [] then
        reject m w r1 ⟨.debug, "missing X-Hub-Signature-256 header in request", []⟩
      else
        match hex.DecodeString s with
        | .error err =>
          reject m w r1 ⟨.debug, "error hex-decoding signature '%s': %v", [.str s, .hexErr err]⟩
        | .ok sig =>
          let sum := hmac.Sum m.secret b
          if !hmac.Equal sum sig then
            reject m w r1
              ⟨.debug, "signature: expected '%x'; received '%s'", [.hexOf sum, .str s]⟩
          else
            match logTo m.logger
                ⟨.debug, "successful webhook invocation from %s", [.str r1.RemoteAddr]⟩ with
            | .error p => .error p
            | .ok l =>
              let r2 := { r1 with Body := ioutil.NopCloser b }
              let res := next.ServeHTTP w r2
              .ok ⟨res.1, res.2.1, l, [r2], res.2.2⟩

/-- The five rejection branches of `ServeHTTP`, in source order. -/
inductive Cause where
  | readError
  | emptyBody
  | missingSignature
  | malformedHex
  | macMismatch
  deriving DecidableEq, Repr

/-- The rejection branch of `ServeHTTP` that a request takes, following the
handler's chain of checks; `none` when every check passes. -/
def failureCause (m : Middleware) (r : Request) : Option Cause :=
  match ioutil.ReadAll r.Body with
  | (_, some _, _) => some .readError
  | (b, none, _) =>
    if b.length = 0 then some .emptyBody
    else
      let s := strings.TrimPrefix (r.Header.Get sigHeader) sigPrefix
      if s = [] then some .missingSignature
      else
        match hex.DecodeString s with
        | .error _ => some .malformedHex
        | .ok sig =>
          if !hmac.Equal (hmac.Sum m.secret b) sig then some .macMismatch else none

/-- The method `Validate`: an empty `Secret` is the error "empty secret";
otherwise the bytes of `Secret` are committed and nil is returned. -/
def Validate (m : Middleware) : Middleware × Option GoError :=
  if m.Secret = [] then (m, some ⟨lit "empty secret"⟩)
  else ({ m with secret := m.Secret }, none)

/-- The test helper `hashFromSecret`: `"sha256="` followed by the lower-case
hex of the HMAC-SHA256 of `body` under `secret` (`%x`). -/
def hashFromSecret (secret body : Bytes) : Bytes :=
  lit "sha256=" ++ hex.EncodeToString (hmac.Sum secret body)

/-! ## caddyfile.Dispenser -/

namespace caddyfile

/-- A Caddyfile token: the file and line it starts on, and its text. -/
structure Token where
  File : Bytes
  Line : Int
  Text : Bytes
  deriving DecidableEq, Repr

/-- Caddy `caddyfile.Dispenser`: the tokens and the index of the loaded
token (`-1` before the first `Next`). -/
structure Dispenser where
  tokens : List Token
  cursor : Int
  deriving DecidableEq, Repr

/-- Caddy `caddyfile.NewDispenser`. -/
def NewDispenser (tokens : List Token) : Dispenser := ⟨tokens, -1⟩

namespace Dispenser

/-- The token at index `i`, `d.tokens[i]`, for an index in range. -/
def tok (d : Dispenser) (i : Int) : Token := d.tokens.getD i.toNat ⟨[], 0, []⟩

/-- Caddy `Dispenser.Next`: loads the next token, if there is one. -/
def Next (d : Dispenser) : Bool × Dispenser :=
  if d.cursor < (d.tokens.length : Int) - 1 then (true, { d with cursor := d.cursor + 1 })
  else (false, d)

/-- Caddy `Dispenser.Val`: the text of the loaded token, `""` without one. -/
def Val (d : Dispenser) : Bytes :=
  if d.cursor < 0 ∨ d.cursor ≥ (d.tokens.length : Int) then [] else (d.tok d.cursor).Text

/-- Caddy `Dispenser.File`: the file of the loaded token. -/
def File (d : Dispenser) : Bytes :=
  if d.cursor < 0 ∨ d.cursor ≥ (d.tokens.length : Int) then [] else (d.tok d.cursor).File

/-- Caddy `Dispenser.Line`: the line of the loaded token. -/
def Line (d : Dispenser) : Int :=
  if d.cursor < 0 ∨ d.cursor ≥ (d.tokens.length : Int) then 0 else (d.tok d.cursor).Line

/-- Caddy `Dispenser.numLineBreaks`: the line feeds inside a token. -/
def numLineBreaks (d : Dispenser) (tknIdx : Int) : Int :=
  if tknIdx < 0 ∨ tknIdx ≥ (d.tokens.length : Int) then 0
  else (strings.CountNewlines (d.tok tknIdx).Text : Int)

/-- Caddy `Dispenser.nextOnSameLine`: loads the next token when it starts
on the line the loaded token ends on, in the same file. -/
def nextOnSameLine (d : Dispenser) : Bool × Dispenser :=
  if d.cursor < 0 then (true, { d with cursor := d.cursor + 1 })
  else if d.cursor ≥ (d.tokens.length : Int) then (false, d)
  else if d.cursor < (d.tokens.length : Int) - 1 ∧
      (d.tok d.cursor).File = (d.tok (d.cursor + 1)).File ∧
      (d.tok d.cursor).Line + d.numLineBreaks d.cursor = (d.tok (d.cursor + 1)).Line then
    (true, { d with cursor := d.cursor + 1 })
  else (false, d)

/-- Caddy `Dispenser.NextArg`: loads the next token if it is on the same
line and is not a block opening `{`. -/
def NextArg (d : Dispenser) : Bool × Dispenser :=
  match d.nextOnSameLine with
  | (false, d1) => (false, d1)
  | (true, d1) =>
    if d1.Val = lit "\x7b" then (false, { d1 with cursor := d1.cursor - 1 })
    else (true, d1)

/-- The test `NextArg` makes of the token `b` that follows the loaded token
`a`: `b` is in the same file, starts on the line `a` ends on
(`nextOnSameLine`), and is not a block opening `{`. -/
def isArgAfter (a b : Token) : Prop :=
  a.File = b.File ∧ a.Line + (strings.CountNewlines a.Text : Int) = b.Line ∧
    b.Text ≠ lit "\x7b"

instance (a b : Token) : Decidable (isArgAfter a b) := by
  unfold isArgAfter
  infer_instance

/-- Caddy `Dispenser.Args`: loads one argument per target and assigns it;
stops at the first target without an argument. -/
def Args : Dispenser → List Bytes → Bool × Dispenser × List Bytes
  | d, [] => (true, d, [])
  | d, t :: ts =>
    match d.NextArg with
    | (false, d1) => (false, d1, t :: ts)
    | (true, d1) =>
      match Args d1 ts with
      | (ok, d2, vs) => (ok, d2, d1.Val :: vs)

/-- Caddy `Dispenser.Err`: the message prefixed by file and line. -/
def Err (d : Dispenser) (msg : Bytes) : GoError :=
  ⟨d.File ++ lit ":" ++ lit (toString d.Line) ++ lit " - Error during parsing: " ++ msg⟩

/-- Caddy `Dispenser.ArgErr`: the error of a wrong argument count. -/
def ArgErr (d : Dispenser) : GoError :=
  if d.Val = lit "\x7b" then d.Err (lit "Unexpected token '\x7b', expecting argument")
  else d.Err (lit "Wrong argument count or unexpected line ending after '" ++ d.Val ++ lit "'")

end Dispenser

end caddyfile

open caddyfile in
/-- One pass of the loop body of `UnmarshalCaddyfile` after `d.Next()`
succeeded: `some` is the early `return d.ArgErr()`. -/
def UnmarshalCaddyfile.body (m : Middleware) (d : Dispenser) :
    Middleware × Dispenser × Option GoError :=
  match d.Args [m.Secret] with
  | (false, d1, vs) => ({ m with Secret := vs.headD m.Secret }, d1, some d1.ArgErr)
  | (true, d1, vs) =>
    let m1 := { m with Secret := vs.headD m.Secret }
    match d1.NextArg with
    | (true, d2) => (m1, d2, some d2.ArgErr)
    | (false, d2) => (m1, d2, none)

open caddyfile in
/-- The method `UnmarshalCaddyfile`: `for d.Next()` around the loop body;
returns the middleware, the dispenser and the error (nil when the tokens
run out). -/
def UnmarshalCaddyfile (m : Middleware) (d : Dispenser) :
    Middleware × Dispenser × Option GoError :=
  match h : d.Next with
  | (false, d1) => (m, d1, none)
  | (true, d1) =>
    match h2 : UnmarshalCaddyfile.body m d1 with
    | (m1, d2, some e) => (m1, d2, some e)
    | (m1, d2, none) => UnmarshalCaddyfile m1 d2
termination_by ((d.tokens.length : Int) - 1 - d.cursor).toNat
decreasing_by
  have hd : d.cursor < (d.tokens.length : Int) - 1 ∧ d1 = { d with cursor := d.cursor + 1 } := by
    unfold Dispenser.Next at h
    split_ifs at h with hc
    · exact ⟨hc, (Prod.mk.inj h).2.symm⟩
    · simp at h
  obtain ⟨h, rfl⟩ := hd
  have hsl : ∀ x : Dispenser, x.nextOnSameLine = (true, { x with cursor := x.cursor + 1 }) ∨
      x.nextOnSameLine = (false, x) := by
    intro x
    unfold Dispenser.nextOnSameLine
    split_ifs <;> simp
  have hna : ∀ x : Dispenser, x.NextArg.2.tokens = x.tokens ∧ x.cursor ≤ x.NextArg.2.cursor := by
    intro x
    unfold Dispenser.NextArg
    rcases hsl x with hx | hx <;> rw [hx] <;> dsimp only
    · split_ifs <;> simp
    · simp
  have key : d2.tokens = d.tokens ∧ d.cursor + 1 ≤ d2.cursor := by
    have h1 := hna { d with cursor := d.cursor + 1 }
    have h3 := hna ({ d with cursor := d.cursor + 1 } : Dispenser).NextArg.2
    simp only [UnmarshalCaddyfile.body, Dispenser.Args] at h2
    generalize ({ d with cursor := d.cursor + 1 } : Dispenser).NextArg = p at h1 h2 h3
    obtain ⟨b, x⟩ := p
    cases b
    · simp at h2
    · dsimp only at h1 h2 h3
      generalize x.NextArg = q at h2 h3
      obtain ⟨c, y⟩ := q
      cases c
      · simp only [Prod.mk.injEq] at h2
        obtain ⟨-, rfl, -⟩ := h2
        dsimp only at h3
        exact ⟨h3.1.trans h1.1, by have := h1.2; have := h3.2; omega⟩
      · simp at h2
  rw [key.1]
  omega

/-- The function `parseCaddyfileHandler`: a new middleware unmarshalled from
the helper's dispenser; nil and the error when unmarshalling fails. -/
def parseCaddyfileHandler (d : caddyfile.Dispenser) : Option Middleware × Option GoError :=
  match UnmarshalCaddyfile Middleware.new d with
  | (_, _, some err) => (none, some err)
  | (m, _, none) => (some m, none)

/-! ## The fixtures of `middleware_test.go` -/

/-- The `next` handler of `TestValidateGitHub`:
`w.WriteHeader(http.StatusAccepted); return nil`. -/
def testNext : Handler := ⟨fun w r => (w.WriteHeader 202, r, none)⟩

/-- The request of `TestValidateGitHub`: `httptest.NewRequest` over `body`
with `X-Hub-Signature-256` added as `signature`. -/
def testRequest (body signature : Bytes) : Request :=
  ⟨⟨body, none, false⟩, http.Header.Add [] sigHeader signature, lit "192.0.2.1:1234"⟩

end validate

/-! # Properties -/

namespace validate

/-! ## Library facts -/

theorem sigPrefix_eq : sigPrefix = [115, 104, 97, 50, 53, 54, 61] := by decide

theorem lit_sha256_eq : lit "sha256=" = sigPrefix := rfl

theorem canonical_sigHeader : http.CanonicalMIMEHeaderKey sigHeader = sigHeader := by decide

theorem hasPrefix_append (pre s : Bytes) : strings.HasPrefix (pre ++ s) pre = true := by
  induction pre with
  | nil => cases s <;> rfl
  | cons p ps ih => simp [strings.HasPrefix, ih]

/-- Trimming a prefix that was just prepended gives the rest back. -/
theorem trimPrefix_append (pre s : Bytes) : strings.TrimPrefix (pre ++ s) pre = s := by
  simp [strings.TrimPrefix, hasPrefix_append]

theorem trimPrefix_of_not_hasPrefix (s pre : Bytes) (h : strings.HasPrefix s pre = false) :
    strings.TrimPrefix s pre = s := by
  simp [strings.TrimPrefix, h]

theorem trimPrefix_nil (pre : Bytes) : strings.TrimPrefix [] pre = [] := by
  unfold strings.TrimPrefix
  split_ifs <;> simp

theorem trimPrefix_self (pre : Bytes) : strings.TrimPrefix pre pre = [] := by
  have h := trimPrefix_append pre []
  rwa [List.append_nil] at h

set_option maxRecDepth 100000 in
theorem fromHexChar_digit_hi :
    ∀ v : Byte, hex.fromHexChar (hex.digit (v.val >>> 4)) = some (v.val >>> 4) := by decide

set_option maxRecDepth 100000 in
theorem fromHexChar_digit_lo :
    ∀ v : Byte, hex.fromHexChar (hex.digit (v.val &&& 0x0f)) = some (v.val &&& 0x0f) := by decide

set_option maxRecDepth 100000 in
theorem nibbles_join :
    ∀ v : Byte, (Fin.ofNat (((v.val >>> 4) <<< 4) ||| (v.val &&& 0x0f)) : Byte) = v := by decide

/-- Decoding inverts encoding: `hex.DecodeString (hex.EncodeToString b) = b`. -/
theorem decode_encode (b : Bytes) : hex.DecodeString (hex.EncodeToString b) = .ok b := by
  induction b with
  | nil => rfl
  | cons v rest ih =>
    simp only [hex.EncodeToString, hex.DecodeString, fromHexChar_digit_hi, fromHexChar_digit_lo, ih,
      nibbles_join]

theorem encode_eq_nil (b : Bytes) : hex.EncodeToString b = [] ↔ b = [] := by
  cases b <;> simp [hex.EncodeToString]

set_option maxRecDepth 100000 in
theorem digit_hi_ne_s : ∀ v : Byte, hex.digit (v.val >>> 4) ≠ 115 := by decide

/-- A hex encoding never begins with `sha256=`: its digits exclude `s`. -/
theorem encode_not_hasPrefix (b : Bytes) :
    strings.HasPrefix (hex.EncodeToString b) sigPrefix = false := by
  rw [sigPrefix_eq]
  cases b with
  | nil => rfl
  | cons v rest =>
    simp only [hex.EncodeToString, strings.HasPrefix, Bool.and_eq_false_imp, beq_iff_eq]
    intro h
    exact absurd h (digit_hi_ne_s v)

/-- A digit that is not hexadecimal makes decoding fail. -/
theorem decode_error_of_invalid : ∀ (s : Bytes), (∃ c ∈ s, hex.fromHexChar c = none) →
    ∃ e, hex.DecodeString s = .error e
  | [], h => by simp at h
  | [c], h => by
    obtain ⟨x, hx, hn⟩ := h
    simp only [List.mem_singleton] at hx
    subst hx
    simp [hex.DecodeString, hn]
  | p :: q :: rest, h => by
    unfold hex.DecodeString
    cases hp : hex.fromHexChar p with
    | none => exact ⟨_, rfl⟩
    | some a =>
      cases hq : hex.fromHexChar q with
      | none => exact ⟨_, rfl⟩
      | some b =>
        have hr : ∃ c ∈ rest, hex.fromHexChar c = none := by
          obtain ⟨x, hx, hn⟩ := h
          simp only [List.mem_cons] at hx
          rcases hx with rfl | rfl | hx
          · rw [hp] at hn; cases hn
          · rw [hq] at hn; cases hn
          · exact ⟨x, hx, hn⟩
        obtain ⟨e, he⟩ := decode_error_of_invalid rest hr
        exact ⟨e, by simp [he]⟩

/-- An odd number of digits makes decoding fail. -/
theorem decode_error_of_odd : ∀ (s : Bytes), s.length % 2 = 1 →
    ∃ e, hex.DecodeString s = .error e
  | [], h => by simp at h
  | [c], _ => by
    unfold hex.DecodeString
    cases hex.fromHexChar c <;> exact ⟨_, rfl⟩
  | p :: q :: rest, h => by
    unfold hex.DecodeString
    cases hp : hex.fromHexChar p with
    | none => exact ⟨_, rfl⟩
    | some a =>
      cases hq : hex.fromHexChar q with
      | none => exact ⟨_, rfl⟩
      | some b =>
        have hr : rest.length % 2 = 1 := by
          simp only [List.length_cons] at h
          omega
        obtain ⟨e, he⟩ := decode_error_of_odd rest hr
        exact ⟨e, by simp [he]⟩

theorem putUint32_length (x : Nat) : (sha256.putUint32 x).length = 4 := rfl

/-- A SHA-256 digest has `sha256.Size` bytes. -/
theorem sum256_length (data : Bytes) : (sha256.Sum256 data).length = 32 := by
  simp [sha256.Sum256, putUint32_length]

/-- An HMAC-SHA256 tag has 32 bytes. -/
theorem hmac_sum_length (key msg : Bytes) : (hmac.Sum key msg).length = 32 := by
  simp [hmac.Sum, sum256_length]

theorem hmac_sum_ne_nil (key msg : Bytes) : hmac.Sum key msg ≠ [] := by
  intro h
  have := hmac_sum_length key msg
  rw [h] at this
  simp at this

set_option maxRecDepth 1000000 in
/-- The FIPS 180-4 test vector: the SHA-256 digest of `abc`. -/
theorem sum256_abc :
    hex.EncodeToString (sha256.Sum256 (lit "abc")) =
      lit "ba7816bf8f01cfea414140de5dae2223b00361a396177a9cb410ff61f20015ad" := by decide

set_option maxRecDepth 1000000 in
/-- The RFC 4231 test case 2: HMAC-SHA256 under the key `Jefe`. -/
theorem hmac_sum_jefe :
    hex.EncodeToString (hmac.Sum (lit "Jefe") (lit "what do ya want for nothing?")) =
      lit "5bdcc146bf60754e6a042426089575c75a003f089d2739839dec58b964ec3843" := by decide

set_option maxRecDepth 1000000 in
/-- The RFC 4231 test case 6: a key of 131 bytes, longer than the block, is
hashed first. -/
theorem hmac_sum_long_key :
    hex.EncodeToString (hmac.Sum (List.replicate 131 0xaa)
        (lit "Test Using Larger Than Block-Size Key - Hash Key First")) =
      lit "60e431591ee0b67f0d8a26aacbf5b77f8e0bc6213728c5140546040f0ee37f54" := by decide

theorem nat_lor_eq_zero (a b : Nat) : a ||| b = 0 ↔ a = 0 ∧ b = 0 := by
  constructor
  · intro h
    have hb : ∀ i, (a.testBit i || b.testBit i) = false := by
      intro i
      rw [← Nat.testBit_or, h, Nat.zero_testBit]
    constructor <;> apply Nat.eq_of_testBit_eq <;> intro i <;>
      have := hb i <;> simp only [Bool.or_eq_false_iff] at this <;> simp [this]
  · rintro ⟨rfl, rfl⟩
    rfl

theorem xorAcc_eq_zero : ∀ (v : Nat) (x y : Bytes), x.length = y.length →
    (subtle.xorAcc v x y = 0 ↔ v = 0 ∧ x = y)
  | v, [], [], _ => by simp [subtle.xorAcc]
  | v, [], _ :: _, h => by simp at h
  | v, _ :: _, [], h => by simp at h
  | v, a :: x, b :: y, h => by
    have hl : x.length = y.length := by simpa using h
    rw [subtle.xorAcc, xorAcc_eq_zero _ x y hl]
    simp only [nat_lor_eq_zero, Nat.xor_eq_zero, List.cons.injEq, Fin.val_inj]
    tauto

/-- The comparison `hmac.Equal` decides equality of byte slices. -/
theorem hmac_equal_iff (x y : Bytes) : hmac.Equal x y = true ↔ x = y := by
  unfold hmac.Equal subtle.ConstantTimeCompare
  by_cases hl : x.length = y.length
  · simp [hl, xorAcc_eq_zero 0 x y hl]
  · have : x ≠ y := fun h => hl (by rw [h])
    simp [hl, this]

/-! ## The two outcomes of `ServeHTTP` -/

/-- The acceptance path: body read without error and non-empty, and the
header's signature decodes to the HMAC of the body.  The next handler is
called once, with the body rehydrated, and its results are returned. -/
theorem serveHTTP_accept (m : Middleware) (w : http.ResponseRecorder) (r : Request)
    (next : Handler) (l : SugaredLogger) (hl : m.logger = some l)
    (herr : r.Body.err = none) (hb : r.Body.data ≠ [])
    (hd : hex.DecodeString (strings.TrimPrefix (r.Header.Get sigHeader) sigPrefix)
      = .ok (hmac.Sum m.secret r.Body.data)) :
    ServeHTTP m w r next = .ok
      ⟨(next.ServeHTTP w { r with Body := ioutil.NopCloser r.Body.data }).1,
       (next.ServeHTTP w { r with Body := ioutil.NopCloser r.Body.data }).2.1,
       l ++ [⟨.debug, "successful webhook invocation from %s", [.str r.RemoteAddr]⟩],
       [{ r with Body := ioutil.NopCloser r.Body.data }],
       (next.ServeHTTP w { r with Body := ioutil.NopCloser r.Body.data }).2.2⟩ := by
  have hs : strings.TrimPrefix (r.Header.Get sigHeader) sigPrefix ≠ [] := by
    intro h0
    rw [h0] at hd
    simp only [hex.DecodeString, Except.ok.injEq] at hd
    exact hmac_sum_ne_nil _ _ hd.symm
  have hlen : r.Body.data.length ≠ 0 := by
    simpa using hb
  have heq : hmac.Equal (hmac.Sum m.secret r.Body.data) (hmac.Sum m.secret r.Body.data) = true :=
    (hmac_equal_iff _ _).2 rfl
  simp only [ServeHTTP, ioutil.ReadAll, herr, hlen, hs, hd, heq, hl, logTo, if_false,
    Bool.not_true, Bool.false_eq_true]

/-- The rejection path: in every other case the response is
`http.Error(w, "invalid signature", 403)`, the next handler is not called
and nil is returned. -/
theorem serveHTTP_reject (m : Middleware) (w : http.ResponseRecorder) (r : Request)
    (next : Handler) (l : SugaredLogger) (hl : m.logger = some l)
    (h : ¬ (r.Body.err = none ∧ r.Body.data ≠ [] ∧
      hex.DecodeString (strings.TrimPrefix (r.Header.Get sigHeader) sigPrefix)
        = .ok (hmac.Sum m.secret r.Body.data))) :
    ∃ r1 e, ServeHTTP m w r next = .ok
      ⟨http.Error w invalidSignature http.StatusForbidden, r1, l ++ [e], [], none⟩ := by
  cases herr : r.Body.err with
  | some err =>
    exact ⟨_, _, by simp only [ServeHTTP, ioutil.ReadAll, herr, reject, hl, logTo]; rfl⟩
  | none =>
    by_cases hb : r.Body.data.length = 0
    · exact ⟨_, _, by simp only [ServeHTTP, ioutil.ReadAll, herr, hb, reject, hl, logTo, if_true]; rfl⟩
    · by_cases hs : strings.TrimPrefix (r.Header.Get sigHeader) sigPrefix = []
      · exact ⟨_, _, by
          simp only [ServeHTTP, ioutil.ReadAll, herr, hb, hs, reject, hl, logTo, if_true,
            if_false]; rfl⟩
      · cases hd : hex.DecodeString (strings.TrimPrefix (r.Header.Get sigHeader) sigPrefix) with
        | error e =>
          exact ⟨_, _, by
            simp only [ServeHTTP, ioutil.ReadAll, herr, hb, hs, hd, reject, hl, logTo, if_false]; rfl⟩
        | ok sig =>
          have hne : hmac.Sum m.secret r.Body.data ≠ sig := by
            intro h1
            apply h
            refine ⟨herr, ?_, ?_⟩
            · intro h0
              rw [h0] at hb
              exact hb rfl
            · rw [hd, h1]
          have heq : hmac.Equal (hmac.Sum m.secret r.Body.data) sig = false := by
            cases hq : hmac.Equal (hmac.Sum m.secret r.Body.data) sig
            · rfl
            · exact absurd ((hmac_equal_iff _ _).1 hq) hne
          exact ⟨_, _, by
            simp only [ServeHTTP, ioutil.ReadAll, herr, hb, hs, hd, heq, reject, hl, logTo,
              if_false, if_true, Bool.not_false]; rfl⟩

/-- On a writer whose status is not out yet, `http.Error` sets the status
code and appends the message and a line feed to the body. -/
theorem http_error_fresh (w : http.ResponseRecorder) (msg : Bytes) (code : Nat)
    (hw : w.wroteHeader = false) :
    (http.Error w msg code).Code = code ∧ (http.Error w msg code).Body = w.Body ++ msg ++ [10] ∧
      (http.Error w msg code).wroteHeader = true := by
  simp [http.Error, http.ResponseRecorder.Write, http.ResponseRecorder.WriteHeader, hw]

/-- The header lookup of a request whose only signature header value is `v`. -/
theorem header_get_single (v : Bytes) (rest : http.Header) :
    http.Header.Get ((sigHeader, [v]) :: rest) sigHeader = v := by
  simp [http.Header.Get, canonical_sigHeader, List.lookup]

/-- A header map without the signature key yields the empty string. -/
theorem header_get_absent (h : http.Header) (hn : h.lookup sigHeader = none) :
    http.Header.Get h sigHeader = [] := by
  simp [http.Header.Get, canonical_sigHeader, hn]

theorem testRequest_get (body signature : Bytes) :
    (testRequest body signature).Header.Get sigHeader = signature := by
  simp [testRequest, http.Header.Add, http.Header.Get, canonical_sigHeader, List.lookup]

/-- HMAC pads a short key with zero bytes, so a key and the same key
followed by a zero byte give the same tag. -/
theorem hmac_sum_zero_padded (key msg : Bytes) (h : key.length < 64) :
    hmac.Sum (key ++ [0]) msg = hmac.Sum key msg := by
  have hk : hmac.keyBlock (key ++ [0]) = hmac.keyBlock key := by
    have h1 : ¬ key.length + 1 > sha256.BlockSize := by
      simp [sha256.BlockSize]; omega
    have h2 : ¬ key.length > sha256.BlockSize := by
      simp [sha256.BlockSize]; omega
    have h3 : sha256.BlockSize - key.length = (sha256.BlockSize - (key.length + 1)) + 1 := by
      simp [sha256.BlockSize]; omega
    simp only [hmac.keyBlock, List.length_append, List.length_singleton, h1, h2, if_false]
    rw [h3, List.replicate_succ, List.append_assoc, List.singleton_append]
  simp only [hmac.Sum, hk]

end validate

/-! ## The claims -/

namespace validate

/-- Claim C1. For every non-empty body `b` and every secret committed by a
successful `Validate`, `ServeHTTP` on a request with body `b` and
`X-Hub-Signature-256` equal to `"sha256="` followed by the lower-case hex of
HMAC-SHA256(secret, `b`) accepts: the next handler is invoked (exactly once,
with the body rehydrated), the writer is whatever the next handler made of
the untouched `w` (the middleware writes no 403 itself), and the next
handler's error is returned. -/
theorem C1_valid_signature_accepts (m0 m : Middleware) (l : SugaredLogger)
    (w : http.ResponseRecorder) (r : Request) (next : Handler) (b : Bytes)
    (hv : Validate m0 = (m, none)) (hl : m.logger = some l)
    (hb : b ≠ []) (hdata : r.Body.data = b) (herr : r.Body.err = none)
    (hh : r.Header.Get sigHeader = lit "sha256=" ++ hex.EncodeToString (hmac.Sum m0.Secret b)) :
    ∃ o, ServeHTTP m w r next = .ok o ∧
      o.next = [{ r with Body := ioutil.NopCloser b }] ∧
      o.w = (next.ServeHTTP w { r with Body := ioutil.NopCloser b }).1 ∧
      o.err = (next.ServeHTTP w { r with Body := ioutil.NopCloser b }).2.2 := by
  have hsec : m.secret = m0.Secret := by
    unfold Validate at hv
    split_ifs at hv with h0
    · simp at hv
    · rw [← (Prod.mk.inj hv).1]
  have hd : hex.DecodeString (strings.TrimPrefix (r.Header.Get sigHeader) sigPrefix)
      = .ok (hmac.Sum m.secret r.Body.data) := by
    rw [hh, lit_sha256_eq, trimPrefix_append, decode_encode, hsec, hdata]
  have hne : r.Body.data ≠ [] := by rwa [hdata]
  refine ⟨_, serveHTTP_accept m w r next l hl herr hne hd, ?_, ?_, ?_⟩ <;> simp only [hdata]

/-- Witness of C1: the valid request of `TestValidateGitHub` (secret
`blah`) is accepted. -/
theorem C1_valid_signature_accepts_witness :
    ∃ o, ServeHTTP ⟨lit "blah", some [], lit "blah"⟩ http.NewRecorder
        (testRequest (lit "bdf3d7cdb794dd1cac43069ab8b4447327dc927c")
          (hashFromSecret (lit "blah") (lit "bdf3d7cdb794dd1cac43069ab8b4447327dc927c")))
        testNext = .ok o ∧
      o.next = [{ testRequest (lit "bdf3d7cdb794dd1cac43069ab8b4447327dc927c")
          (hashFromSecret (lit "blah") (lit "bdf3d7cdb794dd1cac43069ab8b4447327dc927c")) with
        Body := ioutil.NopCloser (lit "bdf3d7cdb794dd1cac43069ab8b4447327dc927c") }] ∧
      o.w = (testNext.ServeHTTP http.NewRecorder
        { testRequest (lit "bdf3d7cdb794dd1cac43069ab8b4447327dc927c")
          (hashFromSecret (lit "blah") (lit "bdf3d7cdb794dd1cac43069ab8b4447327dc927c")) with
        Body := ioutil.NopCloser (lit "bdf3d7cdb794dd1cac43069ab8b4447327dc927c") }).1 ∧
      o.err = (testNext.ServeHTTP http.NewRecorder
        { testRequest (lit "bdf3d7cdb794dd1cac43069ab8b4447327dc927c")
          (hashFromSecret (lit "blah") (lit "bdf3d7cdb794dd1cac43069ab8b4447327dc927c")) with
        Body := ioutil.NopCloser (lit "bdf3d7cdb794dd1cac43069ab8b4447327dc927c") }).2.2 :=
  C1_valid_signature_accepts ⟨lit "blah", some [], []⟩ ⟨lit "blah", some [], lit "blah"⟩ []
    http.NewRecorder _ testNext (lit "bdf3d7cdb794dd1cac43069ab8b4447327dc927c")
    (by decide) rfl (by decide) rfl rfl (testRequest_get _ _)

/-- Claim C2 fails as stated.  The secrets `"a"` and `"a\x00"` differ, yet
a handler whose committed secret is `"a"` accepts the body `x` signed with
`"a\x00"`: HMAC pads a short key with zero bytes, so both give one tag. -/
theorem C2_wrong_secret_counterexample :
    lit "a\x00" ≠ lit "a" ∧
    (Validate ⟨lit "a", some [], []⟩ = (⟨lit "a", some [], lit "a"⟩, none)) ∧
    ∃ o, ServeHTTP ⟨lit "a", some [], lit "a"⟩ http.NewRecorder
        (testRequest (lit "x") (lit "sha256=" ++ hex.EncodeToString (hmac.Sum (lit "a\x00") (lit "x"))))
        testNext = .ok o ∧
      o.next.length = 1 ∧ o.w.Code = 202 ∧ o.w.Body = [] := by
  refine ⟨by decide, by decide, ?_⟩
  have hk : hmac.Sum (lit "a\x00") (lit "x") = hmac.Sum (lit "a") (lit "x") :=
    hmac_sum_zero_padded (lit "a") (lit "x") (by decide)
  have hd : hex.DecodeString (strings.TrimPrefix
      ((testRequest (lit "x") (lit "sha256=" ++
        hex.EncodeToString (hmac.Sum (lit "a\x00") (lit "x")))).Header.Get sigHeader) sigPrefix)
      = .ok (hmac.Sum (lit "a") (lit "x")) := by
    rw [testRequest_get, lit_sha256_eq, trimPrefix_append, decode_encode, hk]
  exact ⟨_, serveHTTP_accept ⟨lit "a", some [], lit "a"⟩ http.NewRecorder _ testNext [] rfl rfl
    (by decide) hd, rfl, rfl, rfl⟩

/-- Claim C2, amended. For every body `b` and every secret `s'` whose
HMAC-SHA256 tag of `b` differs from the tag under the handler's committed
secret, `ServeHTTP` given body `b` and the header `"sha256="` followed by the
lower-case hex of HMAC-SHA256(`s'`, `b`) rejects: the response is
`http.Error(w, "invalid signature", 403)` (status 403 on a writer whose
status is not out), the next handler is not invoked, nil is returned. -/
theorem C2_wrong_mac_rejects (m : Middleware) (l : SugaredLogger)
    (w : http.ResponseRecorder) (r : Request) (next : Handler) (s' b : Bytes)
    (hl : m.logger = some l) (hdata : r.Body.data = b)
    (hh : r.Header.Get sigHeader = lit "sha256=" ++ hex.EncodeToString (hmac.Sum s' b))
    (hne : hmac.Sum s' b ≠ hmac.Sum m.secret b) :
    ∃ o, ServeHTTP m w r next = .ok o ∧
      o.w = http.Error w invalidSignature http.StatusForbidden ∧
      (w.wroteHeader = false → o.w.Code = 403) ∧ o.next = [] ∧ o.err = none := by
  have hrej : ¬ (r.Body.err = none ∧ r.Body.data ≠ [] ∧
      hex.DecodeString (strings.TrimPrefix (r.Header.Get sigHeader) sigPrefix)
        = .ok (hmac.Sum m.secret r.Body.data)) := by
    rintro ⟨-, -, hd⟩
    rw [hh, lit_sha256_eq, trimPrefix_append, decode_encode, hdata] at hd
    exact hne (Except.ok.inj hd)
  obtain ⟨r1, e, hs⟩ := serveHTTP_reject m w r next l hl hrej
  exact ⟨_, hs, rfl, fun hw => (http_error_fresh w _ _ hw).1, rfl, rfl⟩

set_option maxRecDepth 1000000 in
/-- Witness of C2 (amended): the mismatched secrets of
`TestValidateGitHub` (handler `bar`, client `foo`) are rejected. -/
theorem C2_wrong_mac_rejects_witness :
    ∃ o, ServeHTTP ⟨lit "bar", some [], lit "bar"⟩ http.NewRecorder
        (testRequest (lit "f0a1a256f39a17d10dd0559161eba47d687f42cb")
          (hashFromSecret (lit "foo") (lit "f0a1a256f39a17d10dd0559161eba47d687f42cb")))
        testNext = .ok o ∧
      o.w = http.Error http.NewRecorder invalidSignature http.StatusForbidden ∧
      (http.NewRecorder.wroteHeader = false → o.w.Code = 403) ∧ o.next = [] ∧ o.err = none :=
  C2_wrong_mac_rejects ⟨lit "bar", some [], lit "bar"⟩ [] http.NewRecorder _ testNext
    (lit "foo") (lit "f0a1a256f39a17d10dd0559161eba47d687f42cb") rfl rfl
    (testRequest_get _ _) (by decide)

/-- Claim C3. For every secret and every signature header value, `ServeHTTP`
on a request whose body has zero bytes rejects: the response is
`http.Error(w, "invalid signature", 403)`, the next handler is not invoked
and nil is returned, whatever the header carries (the correct HMAC of the
empty message included). -/
theorem C3_empty_body_rejects (m : Middleware) (l : SugaredLogger)
    (w : http.ResponseRecorder) (r : Request) (next : Handler)
    (hl : m.logger = some l) (hb : r.Body.data = []) :
    ∃ o, ServeHTTP m w r next = .ok o ∧
      o.w = http.Error w invalidSignature http.StatusForbidden ∧
      (w.wroteHeader = false → o.w.Code = 403) ∧ o.next = [] ∧ o.err = none := by
  have hrej : ¬ (r.Body.err = none ∧ r.Body.data ≠ [] ∧
      hex.DecodeString (strings.TrimPrefix (r.Header.Get sigHeader) sigPrefix)
        = .ok (hmac.Sum m.secret r.Body.data)) := fun h => h.2.1 hb
  obtain ⟨r1, e, hs⟩ := serveHTTP_reject m w r next l hl hrej
  exact ⟨_, hs, rfl, fun hw => (http_error_fresh w _ _ hw).1, rfl, rfl⟩

/-- Witness of C3: the empty-body case of `TestValidateGitHub`, whose header
is the correct HMAC of the empty message under the handler's secret. -/
theorem C3_empty_body_rejects_witness :
    ∃ o, ServeHTTP ⟨lit "blah", some [], lit "blah"⟩ http.NewRecorder
        (testRequest [] (hashFromSecret (lit "blah") [])) testNext = .ok o ∧
      o.w = http.Error http.NewRecorder invalidSignature http.StatusForbidden ∧
      (http.NewRecorder.wroteHeader = false → o.w.Code = 403) ∧ o.next = [] ∧ o.err = none :=
  C3_empty_body_rejects ⟨lit "blah", some [], lit "blah"⟩ [] http.NewRecorder
    (testRequest [] (hashFromSecret (lit "blah") [])) testNext rfl rfl

/-- Claim C4. For every body and secret, `ServeHTTP` rejects (response
`http.Error(w, "invalid signature", 403)`, next handler not invoked) whenever
the `X-Hub-Signature-256` header is absent, is empty or exactly `"sha256="`,
or, after the `"sha256="` prefix is stripped, contains a non-hexadecimal
character, has odd length, or decodes to a byte sequence whose length is not
32. -/
theorem C4_malformed_signature_rejects (m : Middleware) (l : SugaredLogger)
    (w : http.ResponseRecorder) (r : Request) (next : Handler)
    (hl : m.logger = some l)
    (hbad : r.Header.lookup sigHeader = none ∨
      r.Header.Get sigHeader = [] ∨
      r.Header.Get sigHeader = lit "sha256=" ∨
      (∃ c ∈ strings.TrimPrefix (r.Header.Get sigHeader) (lit "sha256="),
        hex.fromHexChar c = none) ∨
      (strings.TrimPrefix (r.Header.Get sigHeader) (lit "sha256=")).length % 2 = 1 ∨
      (∃ d, hex.DecodeString (strings.TrimPrefix (r.Header.Get sigHeader) (lit "sha256="))
        = .ok d ∧ d.length ≠ 32)) :
    ∃ o, ServeHTTP m w r next = .ok o ∧
      o.w = http.Error w invalidSignature http.StatusForbidden ∧
      (w.wroteHeader = false → o.w.Code = 403) ∧ o.next = [] ∧ o.err = none := by
  have hrej : ¬ (r.Body.err = none ∧ r.Body.data ≠ [] ∧
      hex.DecodeString (strings.TrimPrefix (r.Header.Get sigHeader) sigPrefix)
        = .ok (hmac.Sum m.secret r.Body.data)) := by
    rintro ⟨-, -, hd⟩
    have hnil : r.Header.Get sigHeader = [] → False := by
      intro h0
      rw [h0, trimPrefix_nil] at hd
      simp only [hex.DecodeString, Except.ok.injEq] at hd
      exact hmac_sum_ne_nil _ _ hd.symm
    rw [lit_sha256_eq] at hbad
    rcases hbad with h | h | h | h | h | ⟨d, h, hlen⟩
    · exact hnil (header_get_absent _ h)
    · exact hnil h
    · rw [h, trimPrefix_self] at hd
      simp only [hex.DecodeString, Except.ok.injEq] at hd
      exact hmac_sum_ne_nil _ _ hd.symm
    · obtain ⟨e, he⟩ := decode_error_of_invalid _ h
      rw [he] at hd
      cases hd
    · obtain ⟨e, he⟩ := decode_error_of_odd _ h
      rw [he] at hd
      cases hd
    · rw [h] at hd
      rw [Except.ok.inj hd] at hlen
      exact hlen (hmac_sum_length _ _)
  obtain ⟨r1, e, hs⟩ := serveHTTP_reject m w r next l hl hrej
  exact ⟨_, hs, rfl, fun hw => (http_error_fresh w _ _ hw).1, rfl, rfl⟩

/-- Witness of C4: the signature `sha256=zz` holds a non-hexadecimal
character and is rejected. -/
theorem C4_malformed_signature_rejects_witness :
    ∃ o, ServeHTTP ⟨lit "blah", some [], lit "blah"⟩ http.NewRecorder
        (testRequest (lit "payload") (lit "sha256=zz")) testNext = .ok o ∧
      o.w = http.Error http.NewRecorder invalidSignature http.StatusForbidden ∧
      (http.NewRecorder.wroteHeader = false → o.w.Code = 403) ∧ o.next = [] ∧ o.err = none :=
  C4_malformed_signature_rejects ⟨lit "blah", some [], lit "blah"⟩ [] http.NewRecorder
    (testRequest (lit "payload") (lit "sha256=zz")) testNext rfl
    (Or.inr (Or.inr (Or.inr (Or.inl ⟨122, by decide, by decide⟩))))

/-- Claim C5 fails as stated.  The bare hex encoding of the correct
HMAC-SHA256 of the body does not begin with `"sha256="`, and `ServeHTTP`
accepts it: `strings.TrimPrefix` leaves a value without the prefix as it
is. -/
theorem C5_missing_prefix_counterexample :
    strings.HasPrefix (hex.EncodeToString (hmac.Sum (lit "blah") (lit "payload")))
      (lit "sha256=") = false ∧
    (hex.EncodeToString (hmac.Sum (lit "blah") (lit "payload"))).length = 64 ∧
    ∃ o, ServeHTTP ⟨lit "blah", some [], lit "blah"⟩ http.NewRecorder
        (testRequest (lit "payload") (hex.EncodeToString (hmac.Sum (lit "blah") (lit "payload"))))
        testNext = .ok o ∧
      o.next.length = 1 ∧ o.w.Code = 202 ∧ o.w.Body = [] := by
  have hlen : ∀ x : Bytes, (hex.EncodeToString x).length = 2 * x.length := by
    intro x
    induction x with
    | nil => rfl
    | cons v rest ih => simp only [hex.EncodeToString, List.length_cons, ih]; omega
  refine ⟨encode_not_hasPrefix _, by rw [hlen, hmac_sum_length], ?_⟩
  have hd : hex.DecodeString (strings.TrimPrefix
      ((testRequest (lit "payload") (hex.EncodeToString
        (hmac.Sum (lit "blah") (lit "payload")))).Header.Get sigHeader) sigPrefix)
      = .ok (hmac.Sum (lit "blah") (lit "payload")) := by
    rw [testRequest_get, trimPrefix_of_not_hasPrefix _ _ (encode_not_hasPrefix _), decode_encode]
  exact ⟨_, serveHTTP_accept ⟨lit "blah", some [], lit "blah"⟩ http.NewRecorder _ testNext [] rfl
    rfl (by decide) hd, rfl, rfl, rfl⟩

/-- Claim C5, amended. For every body, secret and `X-Hub-Signature-256` value
that does not begin with `"sha256="`, `ServeHTTP` takes the value itself as
the hex signature: it accepts (next handler invoked once, nothing written by
the middleware) when the body is read without error, is non-empty and the
value hex-decodes to HMAC-SHA256(secret, body), and it rejects
(`http.Error(w, "invalid signature", 403)`, next handler not invoked) in
every other case. -/
theorem C5_missing_prefix_taken_as_signature (m : Middleware) (l : SugaredLogger)
    (w : http.ResponseRecorder) (r : Request) (next : Handler)
    (hl : m.logger = some l)
    (hp : strings.HasPrefix (r.Header.Get sigHeader) (lit "sha256=") = false) :
    ((r.Body.err = none ∧ r.Body.data ≠ [] ∧
        hex.DecodeString (r.Header.Get sigHeader) = .ok (hmac.Sum m.secret r.Body.data)) →
      ∃ o, ServeHTTP m w r next = .ok o ∧
        o.next = [{ r with Body := ioutil.NopCloser r.Body.data }] ∧
        o.w = (next.ServeHTTP w { r with Body := ioutil.NopCloser r.Body.data }).1) ∧
    (¬ (r.Body.err = none ∧ r.Body.data ≠ [] ∧
        hex.DecodeString (r.Header.Get sigHeader) = .ok (hmac.Sum m.secret r.Body.data)) →
      ∃ o, ServeHTTP m w r next = .ok o ∧
        o.w = http.Error w invalidSignature http.StatusForbidden ∧
        (w.wroteHeader = false → o.w.Code = 403) ∧ o.next = [] ∧ o.err = none) := by
  have ht : strings.TrimPrefix (r.Header.Get sigHeader) sigPrefix = r.Header.Get sigHeader :=
    trimPrefix_of_not_hasPrefix _ _ (by rw [← lit_sha256_eq]; exact hp)
  constructor
  · rintro ⟨herr, hb, hd⟩
    exact ⟨_, serveHTTP_accept m w r next l hl herr hb (by rw [ht]; exact hd), rfl, rfl⟩
  · intro hn
    have hrej : ¬ (r.Body.err = none ∧ r.Body.data ≠ [] ∧
        hex.DecodeString (strings.TrimPrefix (r.Header.Get sigHeader) sigPrefix)
          = .ok (hmac.Sum m.secret r.Body.data)) := by
      rw [ht]
      exact hn
    obtain ⟨r1, e, hs⟩ := serveHTTP_reject m w r next l hl hrej
    exact ⟨_, hs, rfl, fun hw => (http_error_fresh w _ _ hw).1, rfl, rfl⟩

/-- Witness of C5 (amended): the header `sha256` (no `=`) lacks the prefix;
it is no hex string and the request is rejected. -/
theorem C5_missing_prefix_taken_as_signature_witness :
    ∃ o, ServeHTTP ⟨lit "blah", some [], lit "blah"⟩ http.NewRecorder
        (testRequest (lit "payload") (lit "sha256")) testNext = .ok o ∧
      o.w = http.Error http.NewRecorder invalidSignature http.StatusForbidden ∧
      (http.NewRecorder.wroteHeader = false → o.w.Code = 403) ∧ o.next = [] ∧ o.err = none :=
  (C5_missing_prefix_taken_as_signature ⟨lit "blah", some [], lit "blah"⟩ [] http.NewRecorder
    (testRequest (lit "payload") (lit "sha256")) testNext rfl (by decide)).2
    (fun h => by
      have h3 := h.2.2
      rw [testRequest_get] at h3
      exact absurd h3 (by decide))

/-- A request that takes a rejection branch fails one of the acceptance
conditions. -/
theorem not_accept_of_failureCause (m : Middleware) (r : Request) (c : Cause)
    (hc : failureCause m r = some c) :
    ¬ (r.Body.err = none ∧ r.Body.data ≠ [] ∧
      hex.DecodeString (strings.TrimPrefix (r.Header.Get sigHeader) sigPrefix)
        = .ok (hmac.Sum m.secret r.Body.data)) := by
  rintro ⟨herr, hb, hd⟩
  have hlen : r.Body.data.length ≠ 0 := by simpa using hb
  have hs : strings.TrimPrefix (r.Header.Get sigHeader) sigPrefix ≠ [] := by
    intro h0
    rw [h0] at hd
    simp only [hex.DecodeString, Except.ok.injEq] at hd
    exact hmac_sum_ne_nil _ _ hd.symm
  have heq : hmac.Equal (hmac.Sum m.secret r.Body.data) (hmac.Sum m.secret r.Body.data) = true :=
    (hmac_equal_iff _ _).2 rfl
  simp [failureCause, ioutil.ReadAll, herr, hlen, hs, hd, heq] at hc

/-- Claim C6. For any two requests (any bodies, headers, secrets, writers and
next handlers) that `ServeHTTP` rejects, whichever of the five failure causes
each one has (body read error, empty body, missing or empty signature,
malformed hex, MAC mismatch), the response written is the same:
`http.Error(w, "invalid signature", 403)`, that is status 403 and the body
`invalid signature` with its line feed on a writer whose status is not out;
the next handler is invoked in neither run and both return nil. -/
theorem C6_rejections_indistinguishable (m1 m2 : Middleware) (l1 l2 : SugaredLogger)
    (w1 w2 : http.ResponseRecorder) (r1 r2 : Request) (next1 next2 : Handler) (c1 c2 : Cause)
    (hl1 : m1.logger = some l1) (hl2 : m2.logger = some l2)
    (hc1 : failureCause m1 r1 = some c1) (hc2 : failureCause m2 r2 = some c2) :
    ∃ o1 o2, ServeHTTP m1 w1 r1 next1 = .ok o1 ∧ ServeHTTP m2 w2 r2 next2 = .ok o2 ∧
      o1.w = http.Error w1 (lit "invalid signature") 403 ∧
      o2.w = http.Error w2 (lit "invalid signature") 403 ∧
      (w1 = w2 → o1.w = o2.w) ∧
      (w1.wroteHeader = false → o1.w.Code = 403 ∧
        o1.w.Body = w1.Body ++ lit "invalid signature" ++ [10]) ∧
      (w2.wroteHeader = false → o2.w.Code = 403 ∧
        o2.w.Body = w2.Body ++ lit "invalid signature" ++ [10]) ∧
      o1.next = [] ∧ o2.next = [] ∧ o1.err = none ∧ o2.err = none := by
  obtain ⟨ra, ea, ha⟩ :=
    serveHTTP_reject m1 w1 r1 next1 l1 hl1 (not_accept_of_failureCause m1 r1 c1 hc1)
  obtain ⟨rb, eb, hb⟩ :=
    serveHTTP_reject m2 w2 r2 next2 l2 hl2 (not_accept_of_failureCause m2 r2 c2 hc2)
  refine ⟨_, _, ha, hb, rfl, rfl, ?_, ?_, ?_, rfl, rfl, rfl, rfl⟩
  · rintro rfl
    rfl
  · intro hw
    exact ⟨(http_error_fresh w1 _ _ hw).1, (http_error_fresh w1 _ _ hw).2.1⟩
  · intro hw
    exact ⟨(http_error_fresh w2 _ _ hw).1, (http_error_fresh w2 _ _ hw).2.1⟩

/-- Witness of C6: a body that fails to be read and a request without
signature header, under different secrets, get the same response. -/
theorem C6_rejections_indistinguishable_witness :
    ∃ o1 o2,
      ServeHTTP ⟨lit "blah", some [], lit "blah"⟩ http.NewRecorder
        ⟨⟨lit "pay", some ⟨lit "unexpected EOF"⟩, false⟩, [], []⟩ testNext = .ok o1 ∧
      ServeHTTP ⟨lit "bar", some [], lit "bar"⟩ http.NewRecorder
        ⟨⟨lit "payload", none, false⟩, [], []⟩ testNext = .ok o2 ∧
      o1.w = http.Error http.NewRecorder (lit "invalid signature") 403 ∧
      o2.w = http.Error http.NewRecorder (lit "invalid signature") 403 ∧
      (http.NewRecorder = http.NewRecorder → o1.w = o2.w) ∧
      (http.NewRecorder.wroteHeader = false → o1.w.Code = 403 ∧
        o1.w.Body = http.NewRecorder.Body ++ lit "invalid signature" ++ [10]) ∧
      (http.NewRecorder.wroteHeader = false → o2.w.Code = 403 ∧
        o2.w.Body = http.NewRecorder.Body ++ lit "invalid signature" ++ [10]) ∧
      o1.next = [] ∧ o2.next = [] ∧ o1.err = none ∧ o2.err = none :=
  C6_rejections_indistinguishable ⟨lit "blah", some [], lit "blah"⟩ ⟨lit "bar", some [], lit "bar"⟩
    [] [] http.NewRecorder http.NewRecorder
    ⟨⟨lit "pay", some ⟨lit "unexpected EOF"⟩, false⟩, [], []⟩ ⟨⟨lit "payload", none, false⟩, [], []⟩
    testNext testNext .readError .missingSignature rfl rfl (by decide) (by decide)

/-- Without a logger every path of `ServeHTTP` panics at its log call. -/
theorem serveHTTP_nil_logger (m : Middleware) (w : http.ResponseRecorder) (r : Request)
    (next : Handler) (hl : m.logger = none) :
    ServeHTTP m w r next = .error .nilPointerDereference := by
  unfold ServeHTTP
  simp only [ioutil.ReadAll, reject, logTo, hl]
  repeat' split
  all_goals rfl

/-- Claim C7. For every request that `ServeHTTP` accepts (it returns having
invoked the next handler), the request passed to the next handler has a body
that, read from the start to the end, yields exactly the original inbound
body bytes, with the same length and without error, and these bytes are not
empty; the next handler is invoked once. -/
theorem C7_body_rehydrated (m : Middleware) (w : http.ResponseRecorder) (r : Request)
    (next : Handler) (o : Outcome) (r2 : Request)
    (ho : ServeHTTP m w r next = .ok o) (hr : r2 ∈ o.next) :
    (ioutil.ReadAll r2.Body).1 = (ioutil.ReadAll r.Body).1 ∧
    (ioutil.ReadAll r2.Body).2.1 = none ∧
    (ioutil.ReadAll r2.Body).1.length = (ioutil.ReadAll r.Body).1.length ∧
    (ioutil.ReadAll r2.Body).1 ≠ [] ∧
    r2.Body.closed = false ∧
    o.next = [r2] := by
  cases hlog : m.logger with
  | none =>
    rw [serveHTTP_nil_logger m w r next hlog] at ho
    cases ho
  | some l =>
    by_cases hacc : r.Body.err = none ∧ r.Body.data ≠ [] ∧
        hex.DecodeString (strings.TrimPrefix (r.Header.Get sigHeader) sigPrefix)
          = .ok (hmac.Sum m.secret r.Body.data)
    · rw [serveHTTP_accept m w r next l hlog hacc.1 hacc.2.1 hacc.2.2] at ho
      have ho1 := Except.ok.inj ho
      subst ho1
      simp only [List.mem_singleton] at hr
      subst hr
      exact ⟨rfl, rfl, rfl, hacc.2.1, rfl, rfl⟩
    · obtain ⟨r1, e, hs⟩ := serveHTTP_reject m w r next l hlog hacc
      rw [hs] at ho
      have ho1 := Except.ok.inj ho
      subst ho1
      simp at hr

/-- Witness of C7: in the valid case of `TestValidateGitHub` the next
handler reads the 40 bytes of the original body. -/
theorem C7_body_rehydrated_witness :
    (ioutil.ReadAll (ioutil.NopCloser (lit "bdf3d7cdb794dd1cac43069ab8b4447327dc927c"))).1
      = (ioutil.ReadAll (testRequest (lit "bdf3d7cdb794dd1cac43069ab8b4447327dc927c")
          (hashFromSecret (lit "blah") (lit "bdf3d7cdb794dd1cac43069ab8b4447327dc927c"))).Body).1 ∧
    (ioutil.ReadAll (ioutil.NopCloser (lit "bdf3d7cdb794dd1cac43069ab8b4447327dc927c"))).1.length
      = 40 := by
  have hd : hex.DecodeString (strings.TrimPrefix
      ((testRequest (lit "bdf3d7cdb794dd1cac43069ab8b4447327dc927c")
        (hashFromSecret (lit "blah")
          (lit "bdf3d7cdb794dd1cac43069ab8b4447327dc927c"))).Header.Get sigHeader) sigPrefix)
      = .ok (hmac.Sum (lit "blah") (lit "bdf3d7cdb794dd1cac43069ab8b4447327dc927c")) := by
    rw [testRequest_get, hashFromSecret, lit_sha256_eq, trimPrefix_append, decode_encode]
  have h := C7_body_rehydrated ⟨lit "blah", some [], lit "blah"⟩ http.NewRecorder
    (testRequest (lit "bdf3d7cdb794dd1cac43069ab8b4447327dc927c")
      (hashFromSecret (lit "blah") (lit "bdf3d7cdb794dd1cac43069ab8b4447327dc927c")))
    testNext _
    { testRequest (lit "bdf3d7cdb794dd1cac43069ab8b4447327dc927c")
        (hashFromSecret (lit "blah") (lit "bdf3d7cdb794dd1cac43069ab8b4447327dc927c")) with
      Body := ioutil.NopCloser (lit "bdf3d7cdb794dd1cac43069ab8b4447327dc927c") }
    (serveHTTP_accept ⟨lit "blah", some [], lit "blah"⟩ http.NewRecorder _ testNext [] rfl rfl
      (by decide) hd)
    (List.mem_singleton.2 rfl)
  exact ⟨h.1, by decide⟩

/-- Claim C8. `Validate` returns nil if and only if `Secret` is non-empty; when
it succeeds the committed byte secret equals the bytes of `Secret` (hence is
non-empty) and nothing else changes; when `Secret` is empty it returns the
error "empty secret" and leaves the middleware, its committed byte secret
included, unchanged. -/
theorem C8_validate (m : Middleware) :
    ((Validate m).2 = none ↔ m.Secret ≠ []) ∧
    ((Validate m).2 = none →
      (Validate m).1.secret = m.Secret ∧ (Validate m).1.secret ≠ [] ∧
      (Validate m).1.Secret = m.Secret ∧ (Validate m).1.logger = m.logger) ∧
    (m.Secret = [] →
      (Validate m).2 = some ⟨lit "empty secret"⟩ ∧ (Validate m).1.secret = m.secret ∧
      (Validate m).1 = m) := by
  unfold Validate
  by_cases h : m.Secret = []
  · simp [h]
  · simp [h]

/-- Witness of C8: the secret `blah` of the tests validates and is
committed. -/
theorem C8_validate_witness :
    (Validate ⟨lit "blah", none, []⟩).1.secret = lit "blah" ∧
    (Validate ⟨lit "blah", none, []⟩).1.secret ≠ [] ∧
    (Validate ⟨lit "blah", none, []⟩).1.Secret = lit "blah" ∧
    (Validate ⟨lit "blah", none, []⟩).1.logger = none :=
  (C8_validate ⟨lit "blah", none, []⟩).2.1 (by decide)

/-- Claim C9 fails as stated.  A provisioned middleware on which `Validate`
fails (empty `Secret`, empty committed secret) still accepts a request with
a non-empty body signed under the empty key: `ServeHTTP` has no check of the
secret. -/
theorem C9_empty_secret_counterexample :
    (Validate ⟨[], some [], []⟩).2 = some ⟨lit "empty secret"⟩ ∧
    (⟨[], some [], []⟩ : Middleware).secret = [] ∧
    ∃ o, ServeHTTP ⟨[], some [], []⟩ http.NewRecorder
        (testRequest (lit "payload") (hashFromSecret [] (lit "payload"))) testNext = .ok o ∧
      o.next.length = 1 ∧ o.w.Code = 202 ∧ o.w.Body = [] := by
  have hd : hex.DecodeString (strings.TrimPrefix
      ((testRequest (lit "payload") (hashFromSecret [] (lit "payload"))).Header.Get sigHeader)
        sigPrefix)
      = .ok (hmac.Sum [] (lit "payload")) := by
    rw [testRequest_get, hashFromSecret, lit_sha256_eq, trimPrefix_append, decode_encode]
  exact ⟨by decide, rfl, _, serveHTTP_accept ⟨[], some [], []⟩ http.NewRecorder _ testNext [] rfl
    rfl (by decide) hd, rfl, rfl, rfl⟩

/-- Claim C9, amended. Serving with an empty secret is prevented at setup
only: `Validate` on an empty `Secret` returns the error "empty secret" and
commits nothing.  `ServeHTTP` itself does not check the secret: for every
middleware whose committed byte secret is empty it rejects
(`http.Error(w, "invalid signature", 403)`, next handler not invoked) every
request except one whose body is read without error, is non-empty and whose
signature hex-decodes to the HMAC-SHA256 of the body under the empty key,
which it accepts. -/
theorem C9_empty_secret_guard (m : Middleware) (l : SugaredLogger)
    (w : http.ResponseRecorder) (r : Request) (next : Handler)
    (hl : m.logger = some l) (hs : m.secret = []) :
    (m.Secret = [] → (Validate m).2 = some ⟨lit "empty secret"⟩ ∧ (Validate m).1 = m) ∧
    (¬ (r.Body.err = none ∧ r.Body.data ≠ [] ∧
        hex.DecodeString (strings.TrimPrefix (r.Header.Get sigHeader) (lit "sha256="))
          = .ok (hmac.Sum [] r.Body.data)) →
      ∃ o, ServeHTTP m w r next = .ok o ∧
        o.w = http.Error w invalidSignature http.StatusForbidden ∧
        (w.wroteHeader = false → o.w.Code = 403) ∧ o.next = [] ∧ o.err = none) ∧
    ((r.Body.err = none ∧ r.Body.data ≠ [] ∧
        hex.DecodeString (strings.TrimPrefix (r.Header.Get sigHeader) (lit "sha256="))
          = .ok (hmac.Sum [] r.Body.data)) →
      ∃ o, ServeHTTP m w r next = .ok o ∧
        o.next = [{ r with Body := ioutil.NopCloser r.Body.data }] ∧
        o.w = (next.ServeHTTP w { r with Body := ioutil.NopCloser r.Body.data }).1) := by
  rw [lit_sha256_eq]
  refine ⟨?_, ?_, ?_⟩
  · intro h0
    simp [Validate, h0]
  · intro hn
    have hn1 : ¬ (r.Body.err = none ∧ r.Body.data ≠ [] ∧
        hex.DecodeString (strings.TrimPrefix (r.Header.Get sigHeader) sigPrefix)
          = .ok (hmac.Sum m.secret r.Body.data)) := by
      rw [hs]
      exact hn
    obtain ⟨r1, e, hr⟩ := serveHTTP_reject m w r next l hl hn1
    exact ⟨_, hr, rfl, fun hw => (http_error_fresh w _ _ hw).1, rfl, rfl⟩
  · rintro ⟨herr, hb, hd⟩
    exact ⟨_, serveHTTP_accept m w r next l hl herr hb (by rw [hs]; exact hd), rfl, rfl⟩

/-- Witness of C9 (amended): on an unvalidated middleware `Validate` reports
"empty secret". -/
theorem C9_empty_secret_guard_witness :
    (Validate ⟨[], some [], []⟩).2 = some ⟨lit "empty secret"⟩ ∧
    (Validate ⟨[], some [], []⟩).1 = ⟨[], some [], []⟩ :=
  (C9_empty_secret_guard ⟨[], some [], []⟩ [] http.NewRecorder
    (testRequest [] []) testNext rfl rfl).1 rfl

/-! ## The Caddyfile directive -/

open caddyfile

/-- One unfolding of the loop of `UnmarshalCaddyfile`. -/
theorem unmarshal_unfold (m : Middleware) (d : Dispenser) :
    UnmarshalCaddyfile m d =
      match d.Next with
      | (false, d1) => (m, d1, none)
      | (true, d1) =>
        match UnmarshalCaddyfile.body m d1 with
        | (m1, d2, some e) => (m1, d2, some e)
        | (m1, d2, none) => UnmarshalCaddyfile m1 d2 := by
  conv_lhs => rw [UnmarshalCaddyfile]
  split
  · next d1 h => rw [h]
  · next d1 h =>
    rw [h]
    dsimp only
    split
    · next m1 d2 e h2 => rw [h2]
    · next m1 d2 h2 => rw [h2]

theorem nextArg_last0 (name : Token) :
    Dispenser.NextArg ⟨[name], 0⟩ = (false, ⟨[name], 0⟩) := by
  simp [Dispenser.NextArg, Dispenser.nextOnSameLine]

theorem nextArg_step0 (name a : Token) (rest : List Token)
    (hf : name.File = a.File) (hline : name.Line + (strings.CountNewlines name.Text : Int) = a.Line)
    (ha : a.Text ≠ lit "\x7b") :
    Dispenser.NextArg ⟨name :: a :: rest, 0⟩ = (true, ⟨name :: a :: rest, 1⟩) := by
  have h0 : ¬ ((rest.length : Int) + 1 + 1 ≤ 0) := by omega
  have hs : Dispenser.nextOnSameLine ⟨name :: a :: rest, 0⟩ = (true, ⟨name :: a :: rest, 1⟩) := by
    simp [Dispenser.nextOnSameLine, Dispenser.tok, Dispenser.numLineBreaks, hf, hline, h0]
  have hv : Dispenser.Val ⟨name :: a :: rest, 1⟩ = a.Text := by
    have h1 : ¬ ((rest.length : Int) + 1 + 1 ≤ 1) := by omega
    simp [Dispenser.Val, Dispenser.tok, h1]
  simp [Dispenser.NextArg, hs, hv, ha]

theorem nextArg_last1 (name a : Token) :
    Dispenser.NextArg ⟨[name, a], 1⟩ = (false, ⟨[name, a], 1⟩) := by
  simp [Dispenser.NextArg, Dispenser.nextOnSameLine]

theorem nextArg_step1 (name a b : Token) (rest : List Token)
    (hf : a.File = b.File) (hline : a.Line + (strings.CountNewlines a.Text : Int) = b.Line)
    (hb : b.Text ≠ lit "\x7b") :
    Dispenser.NextArg ⟨name :: a :: b :: rest, 1⟩ = (true, ⟨name :: a :: b :: rest, 2⟩) := by
  have h0 : ¬ ((rest.length : Int) + 1 + 1 + 1 ≤ 1) := by omega
  have h2 : (1 : Int) < (rest.length : Int) + 1 + 1 + 1 - 1 := by omega
  have hs : Dispenser.nextOnSameLine ⟨name :: a :: b :: rest, 1⟩
      = (true, ⟨name :: a :: b :: rest, 2⟩) := by
    simp [Dispenser.nextOnSameLine, Dispenser.tok, Dispenser.numLineBreaks, hf, hline, h0, h2]
  have hv : Dispenser.Val ⟨name :: a :: b :: rest, 2⟩ = b.Text := by
    have h1 : ¬ ((rest.length : Int) + 1 + 1 + 1 ≤ 2) := by omega
    simp [Dispenser.Val, Dispenser.tok, h1]
  simp [Dispenser.NextArg, hs, hv, hb]

theorem unmarshal_none (m : Middleware) (name : Token) :
    UnmarshalCaddyfile m (NewDispenser [name]) =
      (m, ⟨[name], 0⟩, some (Dispenser.ArgErr ⟨[name], 0⟩)) := by
  rw [unmarshal_unfold]
  simp [NewDispenser, Dispenser.Next, UnmarshalCaddyfile.body, Dispenser.Args, nextArg_last0]

theorem unmarshal_one (m : Middleware) (name a : Token)
    (hf : name.File = a.File) (hline : name.Line + (strings.CountNewlines name.Text : Int) = a.Line)
    (ha : a.Text ≠ lit "\x7b") :
    UnmarshalCaddyfile m (NewDispenser [name, a]) =
      ({ m with Secret := a.Text }, ⟨[name, a], 1⟩, none) := by
  have hv : Dispenser.Val ⟨[name, a], 1⟩ = a.Text := by
    simp [Dispenser.Val, Dispenser.tok]
  rw [unmarshal_unfold]
  simp [NewDispenser, Dispenser.Next, UnmarshalCaddyfile.body, Dispenser.Args,
    nextArg_step0 name a [] hf hline ha, nextArg_last1, hv]
  rw [unmarshal_unfold]
  simp [Dispenser.Next]

theorem unmarshal_many (m : Middleware) (name a b : Token) (rest : List Token)
    (hf : name.File = a.File) (hline : name.Line + (strings.CountNewlines name.Text : Int) = a.Line)
    (ha : a.Text ≠ lit "\x7b")
    (hf2 : a.File = b.File) (hline2 : a.Line + (strings.CountNewlines a.Text : Int) = b.Line)
    (hb : b.Text ≠ lit "\x7b") :
    UnmarshalCaddyfile m (NewDispenser (name :: a :: b :: rest)) =
      ({ m with Secret := a.Text }, ⟨name :: a :: b :: rest, 2⟩,
        some (Dispenser.ArgErr ⟨name :: a :: b :: rest, 2⟩)) := by
  have hv : Dispenser.Val ⟨name :: a :: b :: rest, 1⟩ = a.Text := by
    have h1 : ¬ ((rest.length : Int) + 1 + 1 + 1 ≤ 1) := by omega
    simp [Dispenser.Val, Dispenser.tok, h1]
  have h3 : (-1 : Int) < (rest.length : Int) + 1 + 1 := by omega
  rw [unmarshal_unfold]
  simp [NewDispenser, Dispenser.Next, UnmarshalCaddyfile.body, Dispenser.Args,
    nextArg_step0 name a (b :: rest) hf hline ha, nextArg_step1 name a b rest hf2 hline2 hb, hv, h3]

/-- The token right after a prefix of the tokens. -/
theorem getD_at (pre : List Token) (x : Token) (rest : List Token) (d : Token) :
    (pre ++ x :: rest).getD pre.length d = x := by
  induction pre with
  | nil => rfl
  | cons p ps ih => simpa using ih

theorem getD_next (pre : List Token) (x t : Token) (tl : List Token) (d : Token) :
    (pre ++ x :: t :: tl).getD (pre.length + 1) d = t := by
  induction pre with
  | nil => rfl
  | cons p ps ih => simpa using ih

theorem tok_at (pre : List Token) (x : Token) (rest : List Token) (c : Int) :
    (⟨pre ++ x :: rest, c⟩ : Dispenser).tok (pre.length : Int) = x := by
  unfold Dispenser.tok
  rw [Int.toNat_ofNat]
  exact getD_at pre x rest _

theorem tok_next (pre : List Token) (x t : Token) (tl : List Token) (c : Int) :
    (⟨pre ++ x :: t :: tl, c⟩ : Dispenser).tok ((pre.length : Int) + 1) = t := by
  have h : ((pre.length : Int) + 1).toNat = pre.length + 1 := by omega
  unfold Dispenser.tok
  rw [h]
  exact getD_next pre x t tl _

theorem nextArg_pos_true (pre : List Token) (x t : Token) (tl : List Token)
    (ha : Dispenser.isArgAfter x t) :
    Dispenser.NextArg ⟨pre ++ x :: t :: tl, pre.length⟩ =
      (true, ⟨pre ++ x :: t :: tl, (pre.length : Int) + 1⟩) := by
  obtain ⟨hf, hline, hb⟩ := ha
  have h0 : ¬ ((pre.length : Int) < 0) := by omega
  have h1 : ¬ ((pre.length : Int) ≥ ((pre ++ x :: t :: tl).length : Int)) := by
    simp only [List.length_append, List.length_cons]; omega
  have h2 : (pre.length : Int) < ((pre ++ x :: t :: tl).length : Int) - 1 := by
    simp only [List.length_append, List.length_cons]; omega
  have h3 : ¬ ((pre.length : Int) + 1 < 0 ∨
      (pre.length : Int) + 1 ≥ ((pre ++ x :: t :: tl).length : Int)) := by
    simp only [List.length_append, List.length_cons]; omega
  have hs : Dispenser.nextOnSameLine ⟨pre ++ x :: t :: tl, pre.length⟩ =
      (true, ⟨pre ++ x :: t :: tl, (pre.length : Int) + 1⟩) := by
    unfold Dispenser.nextOnSameLine Dispenser.numLineBreaks
    simp only [h0, h1, h2, tok_at, tok_next, hf, hline, if_false, false_or, and_self, if_true]
  have hv : Dispenser.Val ⟨pre ++ x :: t :: tl, (pre.length : Int) + 1⟩ = t.Text := by
    unfold Dispenser.Val
    simp only [h3, tok_next, if_false]
  simp only [Dispenser.NextArg, hs, hv, hb, if_false]

theorem nextArg_pos_end (pre : List Token) (x : Token) :
    Dispenser.NextArg ⟨pre ++ [x], pre.length⟩ = (false, ⟨pre ++ [x], pre.length⟩) := by
  have h0 : ¬ ((pre.length : Int) < 0) := by omega
  have h2 : ¬ ((pre.length : Int) < ((pre ++ [x]).length : Int) - 1) := by
    simp only [List.length_append, List.length_cons, List.length_nil]; omega
  have hs : Dispenser.nextOnSameLine ⟨pre ++ [x], pre.length⟩ =
      (false, ⟨pre ++ [x], pre.length⟩) := by
    unfold Dispenser.nextOnSameLine
    simp only [h0, h2, if_false, false_and]
    split_ifs <;> rfl
  simp only [Dispenser.NextArg, hs]

theorem nextArg_pos_false (pre : List Token) (x t : Token) (tl : List Token)
    (ha : ¬ Dispenser.isArgAfter x t) :
    Dispenser.NextArg ⟨pre ++ x :: t :: tl, pre.length⟩ =
      (false, ⟨pre ++ x :: t :: tl, pre.length⟩) := by
  have h0 : ¬ ((pre.length : Int) < 0) := by omega
  have h1 : ¬ ((pre.length : Int) ≥ ((pre ++ x :: t :: tl).length : Int)) := by
    simp only [List.length_append, List.length_cons]; omega
  have h2 : (pre.length : Int) < ((pre ++ x :: t :: tl).length : Int) - 1 := by
    simp only [List.length_append, List.length_cons]; omega
  have h3 : ¬ ((pre.length : Int) + 1 < 0 ∨
      (pre.length : Int) + 1 ≥ ((pre ++ x :: t :: tl).length : Int)) := by
    simp only [List.length_append, List.length_cons]; omega
  have h4 : (pre.length : Int) + 1 - 1 = pre.length := by omega
  by_cases hsl : x.File = t.File ∧ x.Line + (strings.CountNewlines x.Text : Int) = t.Line
  · have hb : t.Text = lit "\x7b" := by
      by_contra hne
      exact ha ⟨hsl.1, hsl.2, hne⟩
    have hs : Dispenser.nextOnSameLine ⟨pre ++ x :: t :: tl, pre.length⟩ =
        (true, ⟨pre ++ x :: t :: tl, (pre.length : Int) + 1⟩) := by
      unfold Dispenser.nextOnSameLine Dispenser.numLineBreaks
      simp only [h0, h1, h2, tok_at, tok_next, hsl.1, hsl.2, if_false, false_or, and_self,
        if_true]
    have hv : Dispenser.Val ⟨pre ++ x :: t :: tl, (pre.length : Int) + 1⟩ = t.Text := by
      unfold Dispenser.Val
      simp only [h3, tok_next, if_false]
    simp only [Dispenser.NextArg, hs, hv, hb, if_true, h4]
  · have hs : Dispenser.nextOnSameLine ⟨pre ++ x :: t :: tl, pre.length⟩ =
        (false, ⟨pre ++ x :: t :: tl, pre.length⟩) := by
      unfold Dispenser.nextOnSameLine Dispenser.numLineBreaks
      have hc : ¬ ((pre.length : Int) < ((pre ++ x :: t :: tl).length : Int) - 1 ∧
          x.File = t.File ∧ x.Line + (strings.CountNewlines x.Text : Int) = t.Line) :=
        fun h => hsl h.2
      simp only [h0, h1, tok_at, tok_next, if_false, false_or, hc]
    simp only [Dispenser.NextArg, hs]

theorem next_pos (pre : List Token) (x : Token) (rest : List Token) :
    Dispenser.Next ⟨pre ++ x :: rest, (pre.length : Int) - 1⟩ =
      (true, ⟨pre ++ x :: rest, pre.length⟩) := by
  have h : (pre.length : Int) - 1 < ((pre ++ x :: rest).length : Int) - 1 := by
    simp only [List.length_append, List.length_cons]; omega
  have h1 : (pre.length : Int) - 1 + 1 = pre.length := by omega
  simp only [Dispenser.Next, h, if_true, h1]

theorem next_pos_end (pre : List Token) (x : Token) :
    Dispenser.Next ⟨pre ++ [x], pre.length⟩ = (false, ⟨pre ++ [x], pre.length⟩) := by
  have h : ¬ ((pre.length : Int) < ((pre ++ [x]).length : Int) - 1) := by
    simp only [List.length_append, List.length_cons, List.length_nil]; omega
  simp only [Dispenser.Next, h, if_false]

theorem val_pos (pre : List Token) (x : Token) (rest : List Token) :
    Dispenser.Val ⟨pre ++ x :: rest, pre.length⟩ = x.Text := by
  have h : ¬ ((pre.length : Int) < 0 ∨
      (pre.length : Int) ≥ ((pre ++ x :: rest).length : Int)) := by
    simp only [List.length_append, List.length_cons]; omega
  unfold Dispenser.Val
  simp only [h, tok_at, if_false]

/-- A pass of the loop at a token without argument returns the argument
error at that token. -/
theorem unmarshal_pass_none (m : Middleware) (pre : List Token) (x : Token) (rest : List Token)
    (h : rest = [] ∨ ∃ t tl, rest = t :: tl ∧ ¬ Dispenser.isArgAfter x t) :
    UnmarshalCaddyfile m ⟨pre ++ x :: rest, (pre.length : Int) - 1⟩ =
      (m, ⟨pre ++ x :: rest, pre.length⟩,
        some (Dispenser.ArgErr ⟨pre ++ x :: rest, pre.length⟩)) := by
  have hna : Dispenser.NextArg ⟨pre ++ x :: rest, pre.length⟩ =
      (false, ⟨pre ++ x :: rest, pre.length⟩) := by
    rcases h with rfl | ⟨t, tl, rfl, ha⟩
    · exact nextArg_pos_end pre x
    · exact nextArg_pos_false pre x t tl ha
  rw [unmarshal_unfold, next_pos]
  simp [UnmarshalCaddyfile.body, Dispenser.Args, hna]

/-- A pass at a token with two arguments or more returns the argument error
at the second argument. -/
theorem unmarshal_pass_many (m : Middleware) (pre : List Token) (x a b : Token) (tl : List Token)
    (ha : Dispenser.isArgAfter x a) (hb : Dispenser.isArgAfter a b) :
    UnmarshalCaddyfile m ⟨pre ++ x :: a :: b :: tl, (pre.length : Int) - 1⟩ =
      ({ m with Secret := a.Text }, ⟨pre ++ x :: a :: b :: tl, (pre.length : Int) + 2⟩,
        some (Dispenser.ArgErr ⟨pre ++ x :: a :: b :: tl, (pre.length : Int) + 2⟩)) := by
  have hform : pre ++ x :: a :: b :: tl = (pre ++ [x]) ++ a :: b :: tl := by simp
  have hlen : (((pre ++ [x]).length : Nat) : Int) = (pre.length : Int) + 1 := by simp
  have h2 : (pre.length : Int) + 1 + 1 = (pre.length : Int) + 2 := by omega
  have hna2 : Dispenser.NextArg ⟨pre ++ x :: a :: b :: tl, (pre.length : Int) + 1⟩ =
      (true, ⟨pre ++ x :: a :: b :: tl, (pre.length : Int) + 2⟩) := by
    have := nextArg_pos_true (pre ++ [x]) a b tl hb
    rw [hlen, ← hform, h2] at this
    exact this
  have hv : Dispenser.Val ⟨pre ++ x :: a :: b :: tl, (pre.length : Int) + 1⟩ = a.Text := by
    have := val_pos (pre ++ [x]) a (b :: tl)
    rw [hlen, ← hform] at this
    exact this
  rw [unmarshal_unfold, next_pos]
  simp [UnmarshalCaddyfile.body, Dispenser.Args, nextArg_pos_true pre x a (b :: tl) ha, hna2, hv]

/-- A pass at a token with exactly one argument sets `Secret`; at the end
of the tokens the loop stops and nil is returned. -/
theorem unmarshal_pass_one_end (m : Middleware) (pre : List Token) (x a : Token)
    (ha : Dispenser.isArgAfter x a) :
    UnmarshalCaddyfile m ⟨pre ++ [x, a], (pre.length : Int) - 1⟩ =
      ({ m with Secret := a.Text }, ⟨pre ++ [x, a], (pre.length : Int) + 1⟩, none) := by
  have hform : pre ++ [x, a] = (pre ++ [x]) ++ [a] := by simp
  have hlen : (((pre ++ [x]).length : Nat) : Int) = (pre.length : Int) + 1 := by simp
  have hna2 : Dispenser.NextArg ⟨pre ++ [x, a], (pre.length : Int) + 1⟩ =
      (false, ⟨pre ++ [x, a], (pre.length : Int) + 1⟩) := by
    have := nextArg_pos_end (pre ++ [x]) a
    rw [hlen, ← hform] at this
    exact this
  have hv : Dispenser.Val ⟨pre ++ [x, a], (pre.length : Int) + 1⟩ = a.Text := by
    have := val_pos (pre ++ [x]) a []
    rw [hlen, ← hform] at this
    exact this
  have hnx : Dispenser.Next ⟨pre ++ [x, a], (pre.length : Int) + 1⟩ =
      (false, ⟨pre ++ [x, a], (pre.length : Int) + 1⟩) := by
    have := next_pos_end (pre ++ [x]) a
    rw [hlen, ← hform] at this
    exact this
  rw [unmarshal_unfold, next_pos]
  simp only [UnmarshalCaddyfile.body, Dispenser.Args, nextArg_pos_true pre x a [] ha, hna2, hv,
    List.headD_cons]
  rw [unmarshal_unfold, hnx]

/-- A pass at a token with exactly one argument sets `Secret`; when a token
that is no argument follows, the loop goes on with that token. -/
theorem unmarshal_pass_one_more (m : Middleware) (pre : List Token) (x a t : Token)
    (tl : List Token) (ha : Dispenser.isArgAfter x a) (ht : ¬ Dispenser.isArgAfter a t) :
    UnmarshalCaddyfile m ⟨pre ++ x :: a :: t :: tl, (pre.length : Int) - 1⟩ =
      UnmarshalCaddyfile { m with Secret := a.Text }
        ⟨(pre ++ [x, a]) ++ t :: tl, ((pre ++ [x, a]).length : Int) - 1⟩ := by
  have hform : pre ++ x :: a :: t :: tl = (pre ++ [x]) ++ a :: t :: tl := by simp
  have hform2 : (pre ++ [x, a]) ++ t :: tl = pre ++ x :: a :: t :: tl := by simp
  have hlen : (((pre ++ [x]).length : Nat) : Int) = (pre.length : Int) + 1 := by simp
  have hlen2 : (((pre ++ [x, a]).length : Nat) : Int) - 1 = (pre.length : Int) + 1 := by
    simp only [List.length_append, List.length_cons, List.length_nil]; omega
  have hna2 : Dispenser.NextArg ⟨pre ++ x :: a :: t :: tl, (pre.length : Int) + 1⟩ =
      (false, ⟨pre ++ x :: a :: t :: tl, (pre.length : Int) + 1⟩) := by
    have := nextArg_pos_false (pre ++ [x]) a t tl ht
    rw [hlen, ← hform] at this
    exact this
  have hv : Dispenser.Val ⟨pre ++ x :: a :: t :: tl, (pre.length : Int) + 1⟩ = a.Text := by
    have := val_pos (pre ++ [x]) a (t :: tl)
    rw [hlen, ← hform] at this
    exact this
  rw [hform2, hlen2]
  conv_lhs => rw [unmarshal_unfold, next_pos]
  simp only [UnmarshalCaddyfile.body, Dispenser.Args, nextArg_pos_true pre x a (t :: tl) ha, hna2,
    hv, List.headD_cons]

/-- Claim C10 fails as stated.  In `validate_github s3cret` followed on the
same line by a block opening, with the closing brace on the next line, the
directive has exactly one argument (`s3cret` is one, the brace is none), yet
`UnmarshalCaddyfile` returns an argument error: the loop takes the brace as a
further directive occurrence, and that one has no argument. -/
theorem C10_block_counterexample :
    Dispenser.isArgAfter ⟨lit "Caddyfile", 1, lit "validate_github"⟩
      ⟨lit "Caddyfile", 1, lit "s3cret"⟩ ∧
    ¬ Dispenser.isArgAfter ⟨lit "Caddyfile", 1, lit "s3cret"⟩ ⟨lit "Caddyfile", 1, lit "\x7b"⟩ ∧
    UnmarshalCaddyfile Middleware.new (NewDispenser
        [⟨lit "Caddyfile", 1, lit "validate_github"⟩, ⟨lit "Caddyfile", 1, lit "s3cret"⟩,
         ⟨lit "Caddyfile", 1, lit "\x7b"⟩, ⟨lit "Caddyfile", 2, lit "\x7d"⟩]) =
      (⟨lit "s3cret", none, []⟩,
        ⟨[⟨lit "Caddyfile", 1, lit "validate_github"⟩, ⟨lit "Caddyfile", 1, lit "s3cret"⟩,
          ⟨lit "Caddyfile", 1, lit "\x7b"⟩, ⟨lit "Caddyfile", 2, lit "\x7d"⟩], 2⟩,
        some (Dispenser.ArgErr
          ⟨[⟨lit "Caddyfile", 1, lit "validate_github"⟩, ⟨lit "Caddyfile", 1, lit "s3cret"⟩,
            ⟨lit "Caddyfile", 1, lit "\x7b"⟩, ⟨lit "Caddyfile", 2, lit "\x7d"⟩], 2⟩)) ∧
    Dispenser.Val
        ⟨[⟨lit "Caddyfile", 1, lit "validate_github"⟩, ⟨lit "Caddyfile", 1, lit "s3cret"⟩,
          ⟨lit "Caddyfile", 1, lit "\x7b"⟩, ⟨lit "Caddyfile", 2, lit "\x7d"⟩], 2⟩ = lit "\x7b" := by
  refine ⟨by decide, by decide, ?_, by decide⟩
  have h1 := unmarshal_pass_one_more Middleware.new []
    ⟨lit "Caddyfile", 1, lit "validate_github"⟩ ⟨lit "Caddyfile", 1, lit "s3cret"⟩
    ⟨lit "Caddyfile", 1, lit "\x7b"⟩ [⟨lit "Caddyfile", 2, lit "\x7d"⟩] (by decide) (by decide)
  have h2 := unmarshal_pass_none { Middleware.new with Secret := lit "s3cret" }
    [⟨lit "Caddyfile", 1, lit "validate_github"⟩, ⟨lit "Caddyfile", 1, lit "s3cret"⟩]
    ⟨lit "Caddyfile", 1, lit "\x7b"⟩ [⟨lit "Caddyfile", 2, lit "\x7d"⟩]
    (Or.inr ⟨_, _, rfl, by decide⟩)
  exact h1.trans h2

/-- Claim C10, amended.  `UnmarshalCaddyfile` runs one pass of its loop per
directive occurrence in the dispenser's tokens: the token `name` the pass
starts at (after the tokens `pre` already consumed; none for a fresh
dispenser) and the arguments that follow it, an argument being a token that
`isArgAfter` the one before.  A pass with zero arguments, or with two or
more, returns the argument error `d.ArgErr()`.  A pass with exactly one
argument sets `Secret` to it; it succeeds when the tokens end there, and
when a token that is no argument follows (a block opening, or a token on a
later line) the loop goes on with that token as a further occurrence, which
returns the argument error when it has no argument itself. -/
theorem C10_unmarshal_per_occurrence (m : Middleware) (pre : List Token) (name : Token)
    (rest : List Token) :
    ((rest = [] ∨ ∃ t tl, rest = t :: tl ∧ ¬ Dispenser.isArgAfter name t) →
      UnmarshalCaddyfile m ⟨pre ++ name :: rest, (pre.length : Int) - 1⟩ =
        (m, ⟨pre ++ name :: rest, pre.length⟩,
          some (Dispenser.ArgErr ⟨pre ++ name :: rest, pre.length⟩))) ∧
    (∀ a b tl, rest = a :: b :: tl → Dispenser.isArgAfter name a → Dispenser.isArgAfter a b →
      UnmarshalCaddyfile m ⟨pre ++ name :: rest, (pre.length : Int) - 1⟩ =
        ({ m with Secret := a.Text }, ⟨pre ++ name :: rest, (pre.length : Int) + 2⟩,
          some (Dispenser.ArgErr ⟨pre ++ name :: rest, (pre.length : Int) + 2⟩))) ∧
    (∀ a, rest = [a] → Dispenser.isArgAfter name a →
      UnmarshalCaddyfile m ⟨pre ++ name :: rest, (pre.length : Int) - 1⟩ =
        ({ m with Secret := a.Text }, ⟨pre ++ name :: rest, (pre.length : Int) + 1⟩, none)) ∧
    (∀ a t tl, rest = a :: t :: tl → Dispenser.isArgAfter name a → ¬ Dispenser.isArgAfter a t →
      UnmarshalCaddyfile m ⟨pre ++ name :: rest, (pre.length : Int) - 1⟩ =
        UnmarshalCaddyfile { m with Secret := a.Text }
          ⟨(pre ++ [name, a]) ++ t :: tl, ((pre ++ [name, a]).length : Int) - 1⟩) ∧
    (∀ a t tl, rest = a :: t :: tl → Dispenser.isArgAfter name a → ¬ Dispenser.isArgAfter a t →
      (tl = [] ∨ ∃ u tl1, tl = u :: tl1 ∧ ¬ Dispenser.isArgAfter t u) →
      UnmarshalCaddyfile m ⟨pre ++ name :: rest, (pre.length : Int) - 1⟩ =
        ({ m with Secret := a.Text }, ⟨pre ++ name :: rest, (pre.length : Int) + 2⟩,
          some (Dispenser.ArgErr ⟨pre ++ name :: rest, (pre.length : Int) + 2⟩))) := by
  refine ⟨unmarshal_pass_none m pre name rest, ?_, ?_, ?_, ?_⟩
  · rintro a b tl rfl ha hb
    exact unmarshal_pass_many m pre name a b tl ha hb
  · rintro a rfl ha
    exact unmarshal_pass_one_end m pre name a ha
  · rintro a t tl rfl ha ht
    exact unmarshal_pass_one_more m pre name a t tl ha ht
  · rintro a t tl rfl ha ht hu
    have hform : (pre ++ [name, a]) ++ t :: tl = pre ++ name :: a :: t :: tl := by simp
    have hlen : (((pre ++ [name, a]).length : Nat) : Int) = (pre.length : Int) + 2 := by simp
    rw [unmarshal_pass_one_more m pre name a t tl ha ht,
      unmarshal_pass_none _ (pre ++ [name, a]) t tl hu, hform, hlen]

/-- Witness of C10, amended: `validate_github s3cret` alone on line 1 of
`Caddyfile`, in a fresh dispenser, succeeds and sets `Secret`. -/
theorem C10_unmarshal_per_occurrence_witness :
    UnmarshalCaddyfile Middleware.new (NewDispenser
        [⟨lit "Caddyfile", 1, lit "validate_github"⟩, ⟨lit "Caddyfile", 1, lit "s3cret"⟩]) =
      (⟨lit "s3cret", none, []⟩,
        ⟨[⟨lit "Caddyfile", 1, lit "validate_github"⟩, ⟨lit "Caddyfile", 1, lit "s3cret"⟩], 1⟩,
        none) :=
  (C10_unmarshal_per_occurrence Middleware.new [] ⟨lit "Caddyfile", 1, lit "validate_github"⟩
    [⟨lit "Caddyfile", 1, lit "s3cret"⟩]).2.2.1 _ rfl (by decide)

/-! ## The exact outcome -/

/-- The rejection path with the request it leaves behind: the body stream
is the drained inbound stream, closed unless reading it failed. -/
theorem serveHTTP_reject_request (m : Middleware) (w : http.ResponseRecorder) (r : Request)
    (next : Handler) (l : SugaredLogger) (hl : m.logger = some l)
    (h : ¬ (r.Body.err = none ∧ r.Body.data ≠ [] ∧
      hex.DecodeString (strings.TrimPrefix (r.Header.Get sigHeader) sigPrefix)
        = .ok (hmac.Sum m.secret r.Body.data))) :
    ∃ e, ServeHTTP m w r next = .ok
      ⟨http.Error w invalidSignature http.StatusForbidden,
       { r with Body := if r.Body.err = none then (ioutil.ReadAll r.Body).2.2.Close
                        else (ioutil.ReadAll r.Body).2.2 },
       l ++ [e], [], none⟩ := by
  cases herr : r.Body.err with
  | some err =>
    exact ⟨_, by simp only [ServeHTTP, ioutil.ReadAll, herr, reject, hl, logTo]; rfl⟩
  | none =>
    by_cases hb : r.Body.data.length = 0
    · exact ⟨_, by
        simp only [ServeHTTP, ioutil.ReadAll, herr, hb, reject, hl, logTo, if_true]; rfl⟩
    · by_cases hs : strings.TrimPrefix (r.Header.Get sigHeader) sigPrefix = []
      · exact ⟨_, by
          simp only [ServeHTTP, ioutil.ReadAll, herr, hb, hs, reject, hl, logTo, if_true,
            if_false]; rfl⟩
      · cases hd : hex.DecodeString (strings.TrimPrefix (r.Header.Get sigHeader) sigPrefix) with
        | error e =>
          exact ⟨_, by
            simp only [ServeHTTP, ioutil.ReadAll, herr, hb, hs, hd, reject, hl, logTo, if_false,
              if_true]; rfl⟩
        | ok sig =>
          have hne : hmac.Sum m.secret r.Body.data ≠ sig := by
            intro h1
            apply h
            refine ⟨herr, ?_, ?_⟩
            · intro h0
              rw [h0] at hb
              exact hb rfl
            · rw [hd, h1]
          have heq : hmac.Equal (hmac.Sum m.secret r.Body.data) sig = false := by
            cases hq : hmac.Equal (hmac.Sum m.secret r.Body.data) sig
            · rfl
            · exact absurd ((hmac_equal_iff _ _).1 hq) hne
          exact ⟨_, by
            simp only [ServeHTTP, ioutil.ReadAll, herr, hb, hs, hd, heq, reject, hl, logTo,
              if_false, if_true, Bool.not_false]; rfl⟩

/-- A request that takes no rejection branch meets the acceptance
conditions. -/
theorem accept_of_failureCause_none (m : Middleware) (r : Request)
    (hc : failureCause m r = none) :
    r.Body.err = none ∧ r.Body.data ≠ [] ∧
      hex.DecodeString (strings.TrimPrefix (r.Header.Get sigHeader) sigPrefix)
        = .ok (hmac.Sum m.secret r.Body.data) := by
  cases herr : r.Body.err with
  | some err => simp [failureCause, ioutil.ReadAll, herr] at hc
  | none =>
    by_cases hb : r.Body.data.length = 0
    · simp [failureCause, ioutil.ReadAll, herr, hb] at hc
    · by_cases hs : strings.TrimPrefix (r.Header.Get sigHeader) sigPrefix = []
      · simp [failureCause, ioutil.ReadAll, herr, hb, hs] at hc
      · cases hd : hex.DecodeString (strings.TrimPrefix (r.Header.Get sigHeader) sigPrefix) with
        | error e => simp [failureCause, ioutil.ReadAll, herr, hb, hs, hd] at hc
        | ok sig =>
          simp only [failureCause, ioutil.ReadAll, herr, hb, hs, hd, if_false] at hc
          have hq : hmac.Equal (hmac.Sum m.secret r.Body.data) sig = true := by
            cases hq : hmac.Equal (hmac.Sum m.secret r.Body.data) sig
            · simp [hq] at hc
            · rfl
          refine ⟨rfl, ?_, ?_⟩
          · intro h0
            rw [h0] at hb
            exact hb rfl
          · rw [(hmac_equal_iff _ _).1 hq]

/-- Claim C11. The outcome of `ServeHTTP` is binary and exactly
characterised.  It accepts (the next handler is invoked once, with the body
rehydrated, on the untouched writer) if and only if the body is read without
error and is non-empty, the `X-Hub-Signature-256` value with one leading
`"sha256="` removed is non-empty and hex-decodes successfully, and the decoded
bytes equal HMAC-SHA256(secret, body).  It rejects (the response is
`http.Error(w, "invalid signature", 403)`, the next handler is not invoked)
if and only if these conditions fail.  So one of the two happens, never both
and never neither. -/
theorem C11_outcome_exact (m : Middleware) (l : SugaredLogger)
    (w : http.ResponseRecorder) (r : Request) (next : Handler)
    (hl : m.logger = some l) :
    ∃ o, ServeHTTP m w r next = .ok o ∧
      ((o.next = [{ r with Body := ioutil.NopCloser r.Body.data }] ∧
          o.w = (next.ServeHTTP w { r with Body := ioutil.NopCloser r.Body.data }).1) ↔
        (r.Body.err = none ∧ r.Body.data ≠ [] ∧
          strings.TrimPrefix (r.Header.Get sigHeader) (lit "sha256=") ≠ [] ∧
          ∃ sig, hex.DecodeString (strings.TrimPrefix (r.Header.Get sigHeader) (lit "sha256="))
              = .ok sig ∧ sig = hmac.Sum m.secret r.Body.data)) ∧
      ((o.next = [] ∧ o.w = http.Error w invalidSignature http.StatusForbidden ∧
          (w.wroteHeader = false → o.w.Code = 403)) ↔
        ¬ (r.Body.err = none ∧ r.Body.data ≠ [] ∧
          strings.TrimPrefix (r.Header.Get sigHeader) (lit "sha256=") ≠ [] ∧
          ∃ sig, hex.DecodeString (strings.TrimPrefix (r.Header.Get sigHeader) (lit "sha256="))
              = .ok sig ∧ sig = hmac.Sum m.secret r.Body.data)) ∧
      (o.next = [{ r with Body := ioutil.NopCloser r.Body.data }] ∨ o.next = []) := by
  rw [lit_sha256_eq]
  have hiff : (r.Body.err = none ∧ r.Body.data ≠ [] ∧
        strings.TrimPrefix (r.Header.Get sigHeader) sigPrefix ≠ [] ∧
        ∃ sig, hex.DecodeString (strings.TrimPrefix (r.Header.Get sigHeader) sigPrefix)
            = .ok sig ∧ sig = hmac.Sum m.secret r.Body.data) ↔
      (r.Body.err = none ∧ r.Body.data ≠ [] ∧
        hex.DecodeString (strings.TrimPrefix (r.Header.Get sigHeader) sigPrefix)
          = .ok (hmac.Sum m.secret r.Body.data)) := by
    constructor
    · rintro ⟨herr, hb, -, sig, hd, rfl⟩
      exact ⟨herr, hb, hd⟩
    · rintro ⟨herr, hb, hd⟩
      refine ⟨herr, hb, ?_, _, hd, rfl⟩
      intro h0
      rw [h0] at hd
      simp only [hex.DecodeString, Except.ok.injEq] at hd
      exact hmac_sum_ne_nil _ _ hd.symm
  rw [hiff]
  by_cases hacc : r.Body.err = none ∧ r.Body.data ≠ [] ∧
      hex.DecodeString (strings.TrimPrefix (r.Header.Get sigHeader) sigPrefix)
        = .ok (hmac.Sum m.secret r.Body.data)
  · refine ⟨_, serveHTTP_accept m w r next l hl hacc.1 hacc.2.1 hacc.2.2, ?_, ?_, Or.inl rfl⟩
    · exact ⟨fun _ => hacc, fun _ => ⟨rfl, rfl⟩⟩
    · constructor
      · rintro ⟨h0, -⟩
        simp at h0
      · intro hn
        exact absurd hacc hn
  · obtain ⟨r1, e, hs⟩ := serveHTTP_reject m w r next l hl hacc
    refine ⟨_, hs, ?_, ?_, Or.inr rfl⟩
    · constructor
      · rintro ⟨h0, -⟩
        simp at h0
      · intro hc
        exact absurd hc hacc
    · exact ⟨fun _ => hacc, fun _ => ⟨rfl, rfl, fun hw => (http_error_fresh w _ _ hw).1⟩⟩

/-- Witness of C11: the valid request of `TestValidateGitHub` has exactly
one of the two outcomes. -/
theorem C11_outcome_exact_witness :
    ∃ o, ServeHTTP ⟨lit "blah", some [], lit "blah"⟩ http.NewRecorder
        (testRequest (lit "payload") (hashFromSecret (lit "blah") (lit "payload"))) testNext
          = .ok o ∧
      (o.next = [{ testRequest (lit "payload") (hashFromSecret (lit "blah") (lit "payload")) with
          Body := ioutil.NopCloser (lit "payload") }] ∨ o.next = []) := by
  obtain ⟨o, ho, -, -, h⟩ := C11_outcome_exact ⟨lit "blah", some [], lit "blah"⟩ []
    http.NewRecorder (testRequest (lit "payload") (hashFromSecret (lit "blah") (lit "payload")))
    testNext rfl
  exact ⟨o, ho, h⟩

/-- Claim C12. The error returned by `ServeHTTP` is nil on every
rejection, whichever of the five branches is taken, and on acceptance it is
exactly the result of the single invocation of the next handler.  On
rejection the request's body stream is not replaced with a rehydrated copy:
it stays the drained inbound stream (closed unless reading failed), which
yields no bytes and differs from a fresh stream over the body. -/
theorem C12_returned_error (m : Middleware) (l : SugaredLogger)
    (w : http.ResponseRecorder) (r : Request) (next : Handler)
    (hl : m.logger = some l) :
    ∃ o, ServeHTTP m w r next = .ok o ∧
      (∀ c, failureCause m r = some c →
        o.err = none ∧ o.next = [] ∧
        o.r.Body = (if r.Body.err = none then (ioutil.ReadAll r.Body).2.2.Close
                    else (ioutil.ReadAll r.Body).2.2) ∧
        (ioutil.ReadAll o.r.Body).1 = [] ∧
        o.r.Body ≠ ioutil.NopCloser r.Body.data) ∧
      (failureCause m r = none →
        o.next = [{ r with Body := ioutil.NopCloser r.Body.data }] ∧
        o.err = (next.ServeHTTP w { r with Body := ioutil.NopCloser r.Body.data }).2.2 ∧
        o.r = (next.ServeHTTP w { r with Body := ioutil.NopCloser r.Body.data }).2.1) := by
  cases hc : failureCause m r with
  | some c =>
    obtain ⟨e, hs⟩ := serveHTTP_reject_request m w r next l hl
      (not_accept_of_failureCause m r c hc)
    refine ⟨_, hs, ?_, ?_⟩
    · intro c1 _
      refine ⟨rfl, rfl, rfl, ?_, ?_⟩
      · by_cases herr : r.Body.err = none <;>
          simp [herr, ioutil.ReadAll, ReadCloser.Close]
      · by_cases herr : r.Body.err = none <;>
          simp [herr, ioutil.ReadAll, ReadCloser.Close, ioutil.NopCloser]
    · intro h0
      cases h0
  | none =>
    obtain ⟨herr, hb, hd⟩ := accept_of_failureCause_none m r hc
    refine ⟨_, serveHTTP_accept m w r next l hl herr hb hd, ?_, ?_⟩
    · intro c1 h0
      cases h0
    · intro _
      exact ⟨rfl, rfl, rfl⟩

/-- Witness of C12: the mismatched-secrets case of `TestValidateGitHub`
returns nil and leaves the drained, closed body stream on the request. -/
theorem C12_returned_error_witness :
    ∃ o, ServeHTTP ⟨lit "bar", some [], lit "bar"⟩ http.NewRecorder
        (testRequest (lit "payload") (lit "sha256=00")) testNext = .ok o ∧
      o.err = none ∧ o.next = [] ∧ o.r.Body = ⟨[], none, true⟩ := by
  obtain ⟨o, ho, hrej, -⟩ := C12_returned_error ⟨lit "bar", some [], lit "bar"⟩ []
    http.NewRecorder (testRequest (lit "payload") (lit "sha256=00")) testNext rfl
  have h := hrej .macMismatch (by decide)
  exact ⟨o, ho, h.1, h.2.1, h.2.2.1⟩

/-! ## Letter case of the signature -/

/-- A hex letter and the same letter in the other case have one value. -/
theorem fromHexChar_case (c c' : Byte)
    (h : c = c' ∨ (97 ≤ c.val ∧ c.val ≤ 102 ∧ c'.val + 32 = c.val) ∨
      (65 ≤ c.val ∧ c.val ≤ 70 ∧ c'.val = c.val + 32)) :
    hex.fromHexChar c = hex.fromHexChar c' := by
  rcases h with rfl | ⟨h1, h2, h3⟩ | ⟨h1, h2, h3⟩
  · rfl
  · unfold hex.fromHexChar
    split_ifs <;> first | omega | (congr 1; omega)
  · unfold hex.fromHexChar
    split_ifs <;> first | omega | (congr 1; omega)

/-- A byte that is no hex digit has no other case. -/
theorem eq_of_case_of_invalid (c c' : Byte)
    (h : c = c' ∨ (97 ≤ c.val ∧ c.val ≤ 102 ∧ c'.val + 32 = c.val) ∨
      (65 ≤ c.val ∧ c.val ≤ 70 ∧ c'.val = c.val + 32))
    (hn : hex.fromHexChar c = none) : c = c' := by
  rcases h with rfl | ⟨h1, h2, h3⟩ | ⟨h1, h2, h3⟩
  · rfl
  · unfold hex.fromHexChar at hn
    split_ifs at hn
    omega
  · unfold hex.fromHexChar at hn
    split_ifs at hn
    omega

/-- Decoding does not see the letter case of the digits. -/
theorem decode_case : ∀ (h h' : Bytes),
    List.Forall₂ (fun c c' => c = c' ∨ (97 ≤ c.val ∧ c.val ≤ 102 ∧ c'.val + 32 = c.val) ∨
      (65 ≤ c.val ∧ c.val ≤ 70 ∧ c'.val = c.val + 32)) h h' →
    hex.DecodeString h = hex.DecodeString h'
  | [], _, hc => by
    cases hc
    rfl
  | [c], _, hc => by
    cases hc with
    | cons h1 h2 =>
      cases h2
      unfold hex.DecodeString
      rw [← fromHexChar_case _ _ h1]
      cases hv : hex.fromHexChar c with
      | none => rw [eq_of_case_of_invalid _ _ h1 hv]
      | some a => rfl
  | p :: q :: rest, _, hc => by
    cases hc with
    | cons h1 h2 =>
      cases h2 with
      | cons h3 h4 =>
        unfold hex.DecodeString
        rw [← fromHexChar_case _ _ h1, ← fromHexChar_case _ _ h3, decode_case rest _ h4]
        cases hp : hex.fromHexChar p with
        | none => rw [eq_of_case_of_invalid _ _ h1 hp]
        | some a =>
          cases hq : hex.fromHexChar q with
          | none => rw [eq_of_case_of_invalid _ _ h3 hq]
          | some b => rfl

set_option maxRecDepth 100000 in
theorem fromHexChar_upper_digit_hi : ∀ v : Byte,
    hex.fromHexChar (if 97 ≤ (hex.digit (v.val >>> 4)).val ∧ (hex.digit (v.val >>> 4)).val ≤ 122
      then Fin.ofNat ((hex.digit (v.val >>> 4)).val - 32) else hex.digit (v.val >>> 4))
      = some (v.val >>> 4) := by decide

set_option maxRecDepth 100000 in
theorem fromHexChar_upper_digit_lo : ∀ v : Byte,
    hex.fromHexChar (if 97 ≤ (hex.digit (v.val &&& 0x0f)).val ∧
        (hex.digit (v.val &&& 0x0f)).val ≤ 122
      then Fin.ofNat ((hex.digit (v.val &&& 0x0f)).val - 32) else hex.digit (v.val &&& 0x0f))
      = some (v.val &&& 0x0f) := by decide

/-- Decoding inverts the upper-case encoding as well. -/
theorem decode_upper_encode (b : Bytes) :
    hex.DecodeString (strings.ToUpper (hex.EncodeToString b)) = .ok b := by
  induction b with
  | nil => rfl
  | cons v rest ih =>
    unfold strings.ToUpper at ih
    simp only [strings.ToUpper, hex.EncodeToString, List.map_cons, hex.DecodeString,
      fromHexChar_upper_digit_hi, fromHexChar_upper_digit_lo, ih, nibbles_join]

/-- Claim C13. The accept/reject decision of `ServeHTTP` does not depend
on the letter case of the hexadecimal digits of the signature.  For two
requests with the same body whose header values are `"sha256="` followed by
`h` and by `h'`, where `h'` is `h` with any of its letters `a`..`f` replaced
by `A`..`F` or the reverse, both runs take the same branch: both reject with
the same response, or both invoke the next handler with the rehydrated body.
And the upper-case hex encoding of the correct HMAC-SHA256 is accepted for a
non-empty body. -/
theorem C13_hex_case_insensitive (m : Middleware) (l : SugaredLogger)
    (w : http.ResponseRecorder) (r r' : Request) (next : Handler) (h h' : Bytes)
    (hl : m.logger = some l) (hbody : r'.Body = r.Body)
    (hh : r.Header.Get sigHeader = lit "sha256=" ++ h)
    (hh' : r'.Header.Get sigHeader = lit "sha256=" ++ h')
    (hcase : List.Forall₂ (fun c c' => c = c' ∨
      (97 ≤ c.val ∧ c.val ≤ 102 ∧ c'.val + 32 = c.val) ∨
      (65 ≤ c.val ∧ c.val ≤ 70 ∧ c'.val = c.val + 32)) h h') :
    (∃ o o', ServeHTTP m w r next = .ok o ∧ ServeHTTP m w r' next = .ok o' ∧
      (o.next = [] ↔ o'.next = []) ∧
      (o.next = [] → o.w = o'.w ∧ o.err = o'.err) ∧
      (o.next ≠ [] → o.next = [{ r with Body := ioutil.NopCloser r.Body.data }] ∧
        o'.next = [{ r' with Body := ioutil.NopCloser r.Body.data }])) ∧
    (r.Body.err = none → r.Body.data ≠ [] →
      h = strings.ToUpper (hex.EncodeToString (hmac.Sum m.secret r.Body.data)) →
      ∃ o, ServeHTTP m w r next = .ok o ∧
        o.next = [{ r with Body := ioutil.NopCloser r.Body.data }] ∧
        o.w = (next.ServeHTTP w { r with Body := ioutil.NopCloser r.Body.data }).1) := by
  have hs : strings.TrimPrefix (r.Header.Get sigHeader) sigPrefix = h := by
    rw [hh, lit_sha256_eq, trimPrefix_append]
  have hs' : strings.TrimPrefix (r'.Header.Get sigHeader) sigPrefix = h' := by
    rw [hh', lit_sha256_eq, trimPrefix_append]
  have hdec : hex.DecodeString h' = hex.DecodeString h := (decode_case h h' hcase).symm
  constructor
  · by_cases hacc : r.Body.err = none ∧ r.Body.data ≠ [] ∧
        hex.DecodeString (strings.TrimPrefix (r.Header.Get sigHeader) sigPrefix)
          = .ok (hmac.Sum m.secret r.Body.data)
    · have hacc' : r'.Body.err = none ∧ r'.Body.data ≠ [] ∧
          hex.DecodeString (strings.TrimPrefix (r'.Header.Get sigHeader) sigPrefix)
            = .ok (hmac.Sum m.secret r'.Body.data) := by
        rw [hs', hdec, hbody, ← hs]
        exact hacc
      refine ⟨_, _, serveHTTP_accept m w r next l hl hacc.1 hacc.2.1 hacc.2.2,
        serveHTTP_accept m w r' next l hl hacc'.1 hacc'.2.1 hacc'.2.2, ?_, ?_, ?_⟩
      · simp
      · intro h0
        simp at h0
      · intro _
        exact ⟨rfl, by rw [hbody]⟩
    · have hacc' : ¬ (r'.Body.err = none ∧ r'.Body.data ≠ [] ∧
          hex.DecodeString (strings.TrimPrefix (r'.Header.Get sigHeader) sigPrefix)
            = .ok (hmac.Sum m.secret r'.Body.data)) := by
        rw [hs', hdec, hbody, ← hs]
        exact hacc
      obtain ⟨r1, e, ho⟩ := serveHTTP_reject m w r next l hl hacc
      obtain ⟨r2, e', ho'⟩ := serveHTTP_reject m w r' next l hl hacc'
      refine ⟨_, _, ho, ho', ?_, ?_, ?_⟩
      · simp
      · intro _
        exact ⟨rfl, rfl⟩
      · intro h0
        exact absurd rfl h0
  · intro herr hb hup
    have hd : hex.DecodeString (strings.TrimPrefix (r.Header.Get sigHeader) sigPrefix)
        = .ok (hmac.Sum m.secret r.Body.data) := by
      rw [hs, hup, decode_upper_encode]
    exact ⟨_, serveHTTP_accept m w r next l hl herr hb hd, rfl, rfl⟩

/-- Witness of C13: the signatures `sha256=ab` and `sha256=AB` get the same
decision. -/
theorem C13_hex_case_insensitive_witness :
    ∃ o o', ServeHTTP ⟨lit "blah", some [], lit "blah"⟩ http.NewRecorder
        (testRequest (lit "payload") (lit "sha256=ab")) testNext = .ok o ∧
      ServeHTTP ⟨lit "blah", some [], lit "blah"⟩ http.NewRecorder
        (testRequest (lit "payload") (lit "sha256=AB")) testNext = .ok o' ∧
      (o.next = [] ↔ o'.next = []) ∧
      (o.next = [] → o.w = o'.w ∧ o.err = o'.err) ∧
      (o.next ≠ [] →
        o.next = [{ testRequest (lit "payload") (lit "sha256=ab") with
          Body := ioutil.NopCloser (testRequest (lit "payload") (lit "sha256=ab")).Body.data }] ∧
        o'.next = [{ testRequest (lit "payload") (lit "sha256=AB") with
          Body := ioutil.NopCloser (testRequest (lit "payload") (lit "sha256=ab")).Body.data }]) :=
  (C13_hex_case_insensitive ⟨lit "blah", some [], lit "blah"⟩ [] http.NewRecorder
    (testRequest (lit "payload") (lit "sha256=ab")) (testRequest (lit "payload") (lit "sha256=AB"))
    testNext (lit "ab") (lit "AB") rfl rfl (testRequest_get _ _) (testRequest_get _ _)
    (List.Forall₂.cons (Or.inr (Or.inl ⟨by decide, by decide, by decide⟩))
      (List.Forall₂.cons (Or.inr (Or.inl ⟨by decide, by decide, by decide⟩))
        List.Forall₂.nil))).1

end validate
